import Mathlib

/-!
Verification development for the LocalLens backend core: the hybrid search
engine (`app/services/search_service.py`), the face-identity resolver and
processing pipeline (`app/services/processing_service.py`), and the person
merge operation (`app/api/routes/people.py`).

Modelling conventions:
* SQLAlchemy rows become Lean structures; a table is a `List` of rows in
  insertion (rowid) order.  A relational scan without `ORDER BY` returns the
  table in that order, and `ORDER BY` is embedded as a stable `mergeSort`
  over it (SQLite scans rows in rowid order).
* The ChromaDB vector index is embedded by its query answers: for the image
  collection, a full similarity ranking `String → List Nat` of photo ids per
  query text, of which a k-NN query with `n_results = n` returns the length-n
  prefix; for the face collection, the neighbor list `List (String × ℚ)` of
  (embedding id, cosine distance) pairs returned for a given embedding.
* Cosine distances are floats in the source; they are embedded as `ℚ`.
* Python truthiness is modelled explicitly where the source relies on it
  (`if people_ids:` is false for both `None` and `[]`, etc.).
* The session is created with `autoflush=False` (`app/db/database.py`), so a
  row added to the session is invisible to queries, and its autoincrement
  primary key is `None`, until an explicit `flush()`/`commit()`.  A `Face`
  row therefore carries `id : Option Nat`, and queries only see rows whose
  id is assigned.
-/

namespace LocalLens

/-! ## Data model (app/db/models.py)

`Photo` keeps the columns and association sets the search engine reads.
Columns irrelevant to every claim (file paths, hashes, camera info,
thumbnails, flags) are omitted.  `peopleIds`, `petIds`, `tagNames` embed the
`photo_people`, `photo_pets`, `photo_tags` association tables from the photo
side; `dateTaken` is an `Option Int` timestamp (NULL comparisons in SQL are
false). -/

structure Photo where
  id : Nat
  peopleIds : List Nat
  petIds : List Nat
  tagNames : List String
  locationName : Option String
  city : Option String
  country : Option String
  dateTaken : Option Int
  isVideo : Bool
  deriving Repr, DecidableEq

/-! ## Hybrid search engine (app/services/search_service.py) -/

/-- k-NN query against the image collection: `collection.query(query_embeddings=[…],
n_results=n)` returns the `n` entries of smallest cosine distance, i.e. the
length-`n` prefix of the index's full similarity ranking for the query. -/
def knnQuery (index : String → List Nat) (q : String) (n : Nat) : List Nat :=
  (index q).take n

/-- `self.db.query(Photo).filter(Photo.id.in_(…))` followed by the
`id_to_photo` dictionary lookup: the first (with distinct ids, the only)
photo row carrying the given id. -/
def dbFindPhoto (store : List Photo) (pid : Nat) : Option Photo :=
  store.find? (fun p => p.id == pid)

/-- `SearchService.semantic_search` (search_service.py:18-50): embed the
query, ask the image index for `limit + offset` candidates, keep the ids from
position `offset` on, truncate to `limit`, and map ids back to photo rows in
index order, silently dropping ids with no row. -/
def semantic_search (store : List Photo) (index : String → List Nat)
    (query : String) (limit offset : Nat) : List Photo :=
  let res := knnQuery index query (limit + offset)
  if res.isEmpty then []
  else
    let photo_ids := (res.drop offset).take limit
    photo_ids.filterMap (dbFindPhoto store)

/-- Filter criteria shared by `filter_search` and `combined_search`
(`combined_search` takes exactly these; `filter_search` additionally takes
country/city/is_video, passed separately below). -/
structure SearchFilters where
  peopleIds : Option (List Nat) := none
  petIds : Option (List Nat) := none
  tagNames : Option (List String) := none
  location : Option String := none
  dateFrom : Option Int := none
  dateTo : Option Int := none
  deriving Repr, DecidableEq

/-- Python truthiness of an optional list: `if people_ids:` is false for
`None` and for `[]`. -/
def optListActive {α : Type} : Option (List α) → Bool
  | none => false
  | some l => !l.isEmpty

/-- Python truthiness of an optional string. -/
def optStrActive : Option String → Bool
  | none => false
  | some s => !s.isEmpty

/-- SQL `column ILIKE '%pat%'`: case-insensitive substring match; false on a
NULL column. -/
def ilikeContains (field : Option String) (pat : String) : Bool :=
  match field with
  | none => false
  | some s => decide (pat.toLower.toList.IsInfix s.toLower.toList)

/-- `Photo.people.any(Person.id.in_(people_ids))`. -/
def peopleFilter (ids : List Nat) (p : Photo) : Bool :=
  p.peopleIds.any (fun i => ids.contains i)

/-- `Photo.pets.any(Pet.id.in_(pet_ids))`. -/
def petFilter (ids : List Nat) (p : Photo) : Bool :=
  p.petIds.any (fun i => ids.contains i)

/-- `Photo.tags.any(Tag.name.in_(tag_names))`. -/
def tagFilter (names : List String) (p : Photo) : Bool :=
  p.tagNames.any (fun n => names.contains n)

/-- `or_(location_name ILIKE …, city ILIKE …, country ILIKE …)`. -/
def locationFilter (loc : String) (p : Photo) : Bool :=
  ilikeContains p.locationName loc || ilikeContains p.city loc ||
    ilikeContains p.country loc

/-- `Photo.date_taken >= date_from` (false on NULL `date_taken`). -/
def dateFromFilter (d : Int) (p : Photo) : Bool :=
  match p.dateTaken with
  | some t => d ≤ t
  | none => false

/-- `Photo.date_taken <= date_to` (false on NULL `date_taken`). -/
def dateToFilter (d : Int) (p : Photo) : Bool :=
  match p.dateTaken with
  | some t => t ≤ d
  | none => false

/-- The conjunction of the relational filters applied by `combined_search`
(search_service.py:147-167): each criterion is applied only when truthy in
Python. -/
def matchesFilters (fl : SearchFilters) (p : Photo) : Bool :=
  (!optListActive fl.peopleIds || peopleFilter (fl.peopleIds.getD []) p) &&
  (!optListActive fl.petIds || petFilter (fl.petIds.getD []) p) &&
  (!optListActive fl.tagNames || tagFilter (fl.tagNames.getD []) p) &&
  (!optStrActive fl.location || locationFilter (fl.location.getD "") p) &&
  (fl.dateFrom.all (fun d => dateFromFilter d p)) &&
  (fl.dateTo.all (fun d => dateToFilter d p))

/-- `ORDER BY date_taken DESC` key: SQLite treats NULL as smaller than every
value, so NULL dates sort last under DESC. -/
def dateDescLe (a b : Photo) : Bool :=
  match a.dateTaken, b.dateTaken with
  | _, none => true
  | none, some _ => false
  | some x, some y => decide (y ≤ x)

/-- `SearchService.filter_search` (search_service.py:52-109): relational
query with all criteria, ordered by capture date descending, then
offset/limit.  (The `ORDER BY` is embedded as a stable sort of the
rowid-ordered scan.) -/
def filter_search (store : List Photo) (fl : SearchFilters)
    (country city : Option String) (isVideo : Option Bool)
    (limit offset : Nat) : List Photo :=
  let rows := store.filter (fun p =>
    matchesFilters fl p &&
    (!optStrActive country || ilikeContains p.country (country.getD "")) &&
    (!optStrActive city || ilikeContains p.city (city.getD "")) &&
    (isVideo.all (fun v => p.isVideo == v)))
  ((rows.mergeSort dateDescLe).drop offset).take limit

/-- `SearchService.combined_search` (search_service.py:111-174): with no
(truthy) text query, delegate to `filter_search`; otherwise take a 3×
oversampled semantic candidate list, filter the store rows against exactly
that candidate id set plus the relational criteria, re-sort the survivors by
their rank in the semantic list (`id_order.get(p.id, inf)`; `indexOf`
returns the list length, i.e. beyond every real rank, when absent), and
paginate the sorted survivors. -/
def combined_search (store : List Photo) (index : String → List Nat)
    (textQuery : Option String) (fl : SearchFilters)
    (limit offset : Nat) : List Photo :=
  if !optStrActive textQuery then
    filter_search store fl none none none limit offset
  else
    let semantic_results := semantic_search store index (textQuery.getD "") (limit * 3) 0
    if semantic_results.isEmpty then []
    else
      let photo_ids := semantic_results.map (fun p => p.id)
      let filtered_photos := store.filter (fun p =>
        photo_ids.contains p.id && matchesFilters fl p)
      let sorted := filtered_photos.mergeSort
        (fun a b => decide (photo_ids.indexOf a.id ≤ photo_ids.indexOf b.id))
      (sorted.drop offset).take limit

/-! ### Basic lemmas about `semantic_search` -/

theorem semantic_search_eq (store : List Photo) (index : String → List Nat)
    (q : String) (l o : Nat) :
    semantic_search store index q l o
      = ((((index q).take (l + o)).drop o).take l).filterMap (dbFindPhoto store) := by
  simp only [semantic_search, knnQuery]
  split
  · rename_i h
    rw [List.isEmpty_iff] at h
    simp [h]
  · rfl

theorem dbFindPhoto_mem {store : List Photo} {pid : Nat} {p : Photo}
    (h : dbFindPhoto store pid = some p) : p ∈ store ∧ p.id = pid := by
  refine ⟨List.mem_of_find?_eq_some h, ?_⟩
  have := List.find?_some h
  simpa using this

theorem map_id_filterMap_dbFindPhoto (store : List Photo) (ids : List Nat) :
    (ids.filterMap (dbFindPhoto store)).map (fun p => p.id)
      = ids.filter (fun pid => (dbFindPhoto store pid).isSome) := by
  induction ids with
  | nil => rfl
  | cons a t ih =>
    cases h : dbFindPhoto store a with
    | none => simp [List.filterMap_cons, h, List.filter_cons, ih]
    | some p =>
      have hid : p.id = a := (dbFindPhoto_mem h).2
      simp [List.filterMap_cons, h, List.filter_cons, ih, hid]

/-- Claim C4: `semantic_search` asks the image index for `limit + offset`
candidates, keeps the index's similarity-rank order (the returned photos' ids
form a subsequence of the index ranking), and applies offset then limit to
that ordered list; consequently two consecutive pages of size `l`
concatenate to the single unpaginated page of size `l + l`, and (when the
index ranking has no duplicate ids) the two pages are id-disjoint. -/
theorem semantic_search_pagination (store : List Photo) (index : String → List Nat)
    (q : String) (l o : Nat) (hnd : (index q).Nodup) :
    ((semantic_search store index q l o).map (fun p => p.id)).Sublist (index q)
    ∧ semantic_search store index q l 0 ++ semantic_search store index q l l
        = semantic_search store index q (l + l) 0
    ∧ ∀ p ∈ semantic_search store index q l 0, ∀ p' ∈ semantic_search store index q l l,
        p.id ≠ p'.id := by
  have hseg1 : ((((index q).take (l + 0)).drop 0).take l) = (index q).take l := by
    simp [List.take_take]
  have hseg2 : ((((index q).take (l + l)).drop l).take l) = ((index q).drop l).take l := by
    rw [List.drop_take]
    simp [List.take_take]
  refine ⟨?_, ?_, ?_⟩
  · rw [semantic_search_eq, map_id_filterMap_dbFindPhoto]
    exact (List.filter_sublist _).trans
      ((List.take_sublist _ _).trans ((List.drop_sublist _ _).trans (List.take_sublist _ _)))
  · rw [semantic_search_eq, semantic_search_eq, semantic_search_eq, hseg1, hseg2]
    have hseg3 : ((((index q).take (l + l + 0)).drop 0).take (l + l))
        = (index q).take (l + l) := by
      simp [List.take_take]
    rw [hseg3, List.take_add, List.filterMap_append]
  · intro p hp p' hp'
    rw [semantic_search_eq, hseg1] at hp
    rw [semantic_search_eq, hseg2] at hp'
    obtain ⟨pid, hpid, hfind⟩ := List.mem_filterMap.1 hp
    obtain ⟨pid', hpid', hfind'⟩ := List.mem_filterMap.1 hp'
    have h1 := (dbFindPhoto_mem hfind).2
    have h2 := (dbFindPhoto_mem hfind').2
    intro hc
    have : pid = pid' := by rw [← h1, ← h2, hc]
    subst this
    exact (List.disjoint_take_drop hnd (Nat.le_refl l)) hpid
      (List.mem_of_mem_take (by exact hpid'))

/-! ### Concrete fixtures for the search witnesses -/

def photoW1 : Photo :=
  { id := 1, peopleIds := [7], petIds := [], tagNames := ["beach"],
    locationName := none, city := none, country := none,
    dateTaken := some 10, isVideo := false }

def photoW2 : Photo :=
  { id := 2, peopleIds := [8], petIds := [], tagNames := [],
    locationName := none, city := none, country := none,
    dateTaken := some 20, isVideo := false }

def photoW3 : Photo :=
  { id := 3, peopleIds := [7, 8], petIds := [], tagNames := [],
    locationName := none, city := none, country := none,
    dateTaken := none, isVideo := false }

def storeW : List Photo := [photoW1, photoW2, photoW3]

def searchIndexW : String → List Nat := fun _ => [3, 1, 4, 2]

theorem semantic_search_pagination_witness :
    (searchIndexW "sunset").Nodup
    ∧ (((semantic_search storeW searchIndexW "sunset" 5 5).map (fun p => p.id)).Sublist
          (searchIndexW "sunset")
       ∧ semantic_search storeW searchIndexW "sunset" 5 0
           ++ semantic_search storeW searchIndexW "sunset" 5 5
           = semantic_search storeW searchIndexW "sunset" (5 + 5) 0
       ∧ ∀ p ∈ semantic_search storeW searchIndexW "sunset" 5 0,
           ∀ p' ∈ semantic_search storeW searchIndexW "sunset" 5 5, p.id ≠ p'.id) :=
  ⟨by decide, semantic_search_pagination storeW searchIndexW "sunset" 5 5 (by decide)⟩

theorem drop_take_nil {α : Type} (xs : List α) (offset limit : Nat)
    (h : xs.length ≤ offset) : (xs.drop offset).take limit = [] := by
  rw [List.drop_eq_nil_of_le h]
  exact List.take_nil

/-- Every photo returned by `combined_search` is a row of the relational
store (both the filter-only path and the semantic path read rows from the
store). -/
theorem combined_search_mem_store (store : List Photo) (index : String → List Nat)
    (t : Option String) (fl : SearchFilters) (limit offset : Nat) :
    ∀ p ∈ combined_search store index t fl limit offset, p ∈ store := by
  intro p hp
  simp only [combined_search] at hp
  split at hp
  · simp only [filter_search] at hp
    have h1 := List.mem_of_mem_take hp
    have h2 := (List.mem_of_mem_drop h1)
    have h3 := (List.mergeSort_perm _ _).mem_iff.1 h2
    exact List.mem_of_mem_filter h3
  · split at hp
    · simp at hp
    · have h1 := List.mem_of_mem_take hp
      have h2 := List.mem_of_mem_drop h1
      have h3 := (List.mergeSort_perm _ _).mem_iff.1 h2
      exact List.mem_of_mem_filter h3

/-- Claim C9: the search entry points tolerate degenerate inputs and
index/store divergence: an empty index ranking yields `[]`; an offset past
the available candidates yields `[]` rather than an error; every returned
photo is a real store row, and an id the index returns that has no photo row
never appears among the results; `combined_search` short-circuits an empty
semantic result to `[]`, and an offset past the whole store yields `[]`. -/
theorem search_degenerate_total (store : List Photo) (index : String → List Nat)
    (q : String) (l o : Nat) (fl : SearchFilters) :
    ((index q) = [] → semantic_search store index q l o = [])
    ∧ ((index q).length ≤ o → semantic_search store index q l o = [])
    ∧ (∀ p ∈ semantic_search store index q l o, p ∈ store)
    ∧ (∀ pid, dbFindPhoto store pid = none →
        ∀ p ∈ semantic_search store index q l o, p.id ≠ pid)
    ∧ (∀ limit offset, q ≠ "" →
        semantic_search store index q (limit * 3) 0 = [] →
        combined_search store index (some q) fl limit offset = [])
    ∧ (∀ limit offset, store.length ≤ offset →
        combined_search store index (some q) fl limit offset = []) := by
  refine ⟨?_, ?_, ?_, ?_, ?_, ?_⟩
  · intro h
    simp [semantic_search, knnQuery, h]
  · intro h
    rw [semantic_search_eq]
    have : (((index q).take (l + o)).drop o) = [] :=
      List.drop_eq_nil_of_le (((List.take_sublist _ _).length_le).trans h)
    simp [this]
  · intro p hp
    rw [semantic_search_eq] at hp
    obtain ⟨pid, _, hfind⟩ := List.mem_filterMap.1 hp
    exact (dbFindPhoto_mem hfind).1
  · intro pid hnone p hp hc
    rw [semantic_search_eq] at hp
    obtain ⟨pid', _, hfind⟩ := List.mem_filterMap.1 hp
    have := (dbFindPhoto_mem hfind).2
    rw [hc] at this
    rw [this] at hnone
    simp [hnone] at hfind
  · intro limit offset hq hsem
    simp only [combined_search, optStrActive]
    rw [if_neg]
    · simp [hsem]
    · simpa [String.isEmpty_iff] using hq
  · intro limit offset hoff
    simp only [combined_search]
    split
    · simp only [filter_search]
      refine drop_take_nil _ _ _ ?_
      rw [List.length_mergeSort]
      exact (List.length_filter_le _ _).trans hoff
    · split
      · rfl
      · refine drop_take_nil _ _ _ ?_
        rw [List.length_mergeSort]
        exact (List.length_filter_le _ _).trans hoff

def searchIndexEmptyW : String → List Nat := fun _ => []

def filtersW : SearchFilters := { peopleIds := some [7] }

theorem search_degenerate_total_witness :
    semantic_search storeW searchIndexEmptyW "x" 5 0 = []
    ∧ semantic_search storeW searchIndexW "x" 5 99 = []
    ∧ combined_search storeW searchIndexEmptyW (some "beach") filtersW 5 0 = []
    ∧ combined_search storeW searchIndexW (some "beach") filtersW 5 99 = [] :=
  ⟨(search_degenerate_total storeW searchIndexEmptyW "x" 5 0 filtersW).1 rfl,
   (search_degenerate_total storeW searchIndexW "x" 5 99 filtersW).2.1 (by decide),
   (search_degenerate_total storeW searchIndexEmptyW "beach" 5 0 filtersW).2.2.2.2.1 5 0
     (by decide) (by decide),
   (search_degenerate_total storeW searchIndexW "beach" 5 99 filtersW).2.2.2.2.2 5 99
     (by decide)⟩

/-! ### Combined search: re-sorting by semantic rank (Claim C3) -/

theorem mem_store_of_mem_semantic {store : List Photo} {index : String → List Nat}
    {q : String} {l o : Nat} : ∀ p ∈ semantic_search store index q l o, p ∈ store := by
  intro p hp
  rw [semantic_search_eq] at hp
  obtain ⟨pid, _, hfind⟩ := List.mem_filterMap.1 hp
  exact (dbFindPhoto_mem hfind).1

theorem semantic_search_ids_nodup (store : List Photo) (index : String → List Nat)
    (q : String) (l o : Nat) (hnd : (index q).Nodup) :
    ((semantic_search store index q l o).map (fun p => p.id)).Nodup := by
  rw [semantic_search_eq, map_id_filterMap_dbFindPhoto]
  exact ((List.filter_sublist _).trans
    ((List.take_sublist _ _).trans
      ((List.drop_sublist _ _).trans (List.take_sublist _ _)))).nodup hnd

/-- In a list whose ids are distinct, the rank of each element's id (its
index in the id list) is strictly increasing along the list. -/
theorem pairwise_rank_lt (l : List Photo) (h : (l.map (fun p => p.id)).Nodup) :
    l.Pairwise (fun a b =>
      (l.map (fun p => p.id)).indexOf a.id < (l.map (fun p => p.id)).indexOf b.id) := by
  rw [List.pairwise_iff_getElem]
  intro i j hi hj hij
  have hi' : i < (l.map (fun p => p.id)).length := by simpa using hi
  have hj' : j < (l.map (fun p => p.id)).length := by simpa using hj
  have e1 : (l.map (fun p => p.id)).indexOf ((l.map (fun p => p.id))[i]) = i :=
    List.indexOf_getElem h i hi'
  have e2 : (l.map (fun p => p.id)).indexOf ((l.map (fun p => p.id))[j]) = j :=
    List.indexOf_getElem h j hj'
  rw [List.getElem_map] at e1 e2
  rw [e1, e2]
  exact hij

/-- The heart of `combined_search`'s semantic branch: filtering the store
against the semantic candidate id set and re-sorting the survivors by their
rank in the semantic list reproduces exactly the semantic list filtered in
place — an order-preserving filter of the semantic ranking. -/
theorem resort_eq_filter (store : List Photo) (fl : SearchFilters) (sem : List Photo)
    (hsub : ∀ p ∈ sem, p ∈ store)
    (hids : (sem.map (fun p => p.id)).Nodup)
    (hstore : (store.map (fun p => p.id)).Nodup) :
    (store.filter (fun p =>
        (sem.map (fun p => p.id)).contains p.id && matchesFilters fl p)).mergeSort
      (fun a b => decide ((sem.map (fun p => p.id)).indexOf a.id
        ≤ (sem.map (fun p => p.id)).indexOf b.id))
      = sem.filter (matchesFilters fl) := by
  have hstore_nd : store.Nodup := List.Nodup.of_map _ hstore
  have hsem_nd : sem.Nodup := List.Nodup.of_map _ hids
  have hAnd : (store.filter (fun p =>
      (sem.map (fun p => p.id)).contains p.id && matchesFilters fl p)).Nodup :=
    hstore_nd.filter _
  have hBnd : (sem.filter (matchesFilters fl)).Nodup := hsem_nd.filter _
  have hmem : ∀ p, p ∈ store.filter (fun p =>
        (sem.map (fun p => p.id)).contains p.id && matchesFilters fl p)
      ↔ p ∈ sem.filter (matchesFilters fl) := by
    intro p
    simp only [List.mem_filter, Bool.and_eq_true]
    constructor
    · rintro ⟨hps, hcont, hm⟩
      have hpid : p.id ∈ sem.map (fun p => p.id) := by
        simpa using hcont
      obtain ⟨q, hq, hqid⟩ := List.mem_map.1 hpid
      have hq' : q = p := List.inj_on_of_nodup_map hstore (hsub q hq) hps hqid
      subst hq'
      exact ⟨hq, hm⟩
    · rintro ⟨hpsem, hm⟩
      refine ⟨hsub p hpsem, ?_, hm⟩
      have : p.id ∈ sem.map (fun p => p.id) := List.mem_map_of_mem _ hpsem
      simpa using this
  have hperm : ((store.filter (fun p =>
        (sem.map (fun p => p.id)).contains p.id && matchesFilters fl p)).mergeSort
      (fun a b => decide ((sem.map (fun p => p.id)).indexOf a.id
        ≤ (sem.map (fun p => p.id)).indexOf b.id))).Perm (sem.filter (matchesFilters fl)) :=
    (List.mergeSort_perm _ _).trans ((List.perm_ext_iff_of_nodup hAnd hBnd).2 hmem)
  have htrans : ∀ a b c : Photo,
      decide ((sem.map (fun p => p.id)).indexOf a.id
        ≤ (sem.map (fun p => p.id)).indexOf b.id) = true →
      decide ((sem.map (fun p => p.id)).indexOf b.id
        ≤ (sem.map (fun p => p.id)).indexOf c.id) = true →
      decide ((sem.map (fun p => p.id)).indexOf a.id
        ≤ (sem.map (fun p => p.id)).indexOf c.id) = true := by
    intro a b c hab hbc
    simp only [decide_eq_true_eq] at *
    omega
  have htotal : ∀ a b : Photo,
      (decide ((sem.map (fun p => p.id)).indexOf a.id
        ≤ (sem.map (fun p => p.id)).indexOf b.id)
       || decide ((sem.map (fun p => p.id)).indexOf b.id
        ≤ (sem.map (fun p => p.id)).indexOf a.id)) = true := by
    intro a b
    simp only [Bool.or_eq_true, decide_eq_true_eq]
    omega
  have hnd_sorted := (List.mergeSort_perm (store.filter (fun p =>
      (sem.map (fun p => p.id)).contains p.id && matchesFilters fl p))
      (fun a b => decide ((sem.map (fun p => p.id)).indexOf a.id
        ≤ (sem.map (fun p => p.id)).indexOf b.id))).symm.nodup hAnd
  have hinj : ∀ a b : Photo, a ∈ store.filter (fun p =>
        (sem.map (fun p => p.id)).contains p.id && matchesFilters fl p) →
      b ∈ store.filter (fun p =>
        (sem.map (fun p => p.id)).contains p.id && matchesFilters fl p) →
      (sem.map (fun p => p.id)).indexOf a.id = (sem.map (fun p => p.id)).indexOf b.id →
      a = b := by
    intro a b ha hb hab
    have ha' := (hmem a).1 ha
    have hb' := (hmem b).1 hb
    have haid : a.id ∈ sem.map (fun p => p.id) :=
      List.mem_map_of_mem _ (List.mem_of_mem_filter ha')
    have hbid : b.id ∈ sem.map (fun p => p.id) :=
      List.mem_map_of_mem _ (List.mem_of_mem_filter hb')
    have : a.id = b.id := (List.indexOf_inj haid hbid).1 hab
    exact List.inj_on_of_nodup_map hstore (List.mem_of_mem_filter ha)
      (List.mem_of_mem_filter hb) this
  have hsorted_lt : ((store.filter (fun p =>
        (sem.map (fun p => p.id)).contains p.id && matchesFilters fl p)).mergeSort
      (fun a b => decide ((sem.map (fun p => p.id)).indexOf a.id
        ≤ (sem.map (fun p => p.id)).indexOf b.id))).Pairwise
      (fun a b => (sem.map (fun p => p.id)).indexOf a.id
        < (sem.map (fun p => p.id)).indexOf b.id) := by
    have hle := List.sorted_mergeSort htrans htotal (store.filter (fun p =>
      (sem.map (fun p => p.id)).contains p.id && matchesFilters fl p))
    refine List.Pairwise.imp_of_mem ?_ (hle.and hnd_sorted)
    intro a b ha hb hrel
    obtain ⟨hle', hne⟩ := hrel
    have h1 : (sem.map (fun p => p.id)).indexOf a.id
        ≤ (sem.map (fun p => p.id)).indexOf b.id := by simpa using hle'
    refine Nat.lt_of_le_of_ne h1 (fun hEq => hne ?_)
    exact hinj a b (List.mem_mergeSort.1 ha) (List.mem_mergeSort.1 hb) hEq
  have hB_lt : (sem.filter (matchesFilters fl)).Pairwise
      (fun a b => (sem.map (fun p => p.id)).indexOf a.id
        < (sem.map (fun p => p.id)).indexOf b.id) :=
    List.Pairwise.sublist (List.filter_sublist _) (pairwise_rank_lt sem hids)
  haveI : IsAntisymm Photo (fun a b => (sem.map (fun p => p.id)).indexOf a.id
      < (sem.map (fun p => p.id)).indexOf b.id) :=
    ⟨fun a b h1 h2 => absurd h2 (Nat.lt_asymm h1)⟩
  exact List.eq_of_perm_of_sorted hperm hsorted_lt hB_lt

theorem combined_search_some_eq (store : List Photo) (index : String → List Nat)
    (t : String) (fl : SearchFilters) (limit offset : Nat) (ht : t ≠ "") :
    combined_search store index (some t) fl limit offset
      = (if (semantic_search store index t (limit * 3) 0).isEmpty then []
         else
           ((((store.filter (fun p =>
              ((semantic_search store index t (limit * 3) 0).map (fun p => p.id)).contains p.id
                && matchesFilters fl p)).mergeSort
              (fun a b => decide
                (((semantic_search store index t (limit * 3) 0).map (fun p => p.id)).indexOf a.id
                  ≤ ((semantic_search store index t (limit * 3) 0).map
                      (fun p => p.id)).indexOf b.id))).drop offset).take limit)) := by
  have h : optStrActive (some t) = true := by
    simp only [optStrActive, Bool.not_eq_true']
    rw [← Bool.not_eq_true, String.isEmpty_iff]
    exact ht
  simp only [combined_search, h, Bool.not_true]
  rfl

/-- Claim C3: with a non-empty text query, `combined_search` equals the 3×
oversampled semantic result filtered in place (survivors re-ranked into
semantic order) and then paginated; hence every returned photo passes every
supplied filter (with `people_ids = [7]`, every result contains person 7),
and the result is an order-preserving subsequence of `semantic_search` for
the same text. -/
theorem combined_search_filters_order (store : List Photo) (index : String → List Nat)
    (t : String) (fl : SearchFilters) (limit offset : Nat)
    (ht : t ≠ "") (hnd : (index t).Nodup)
    (hstore : (store.map (fun p => p.id)).Nodup) :
    combined_search store index (some t) fl limit offset
      = (((semantic_search store index t (limit * 3) 0).filter
          (matchesFilters fl)).drop offset).take limit
    ∧ (∀ p ∈ combined_search store index (some t) fl limit offset,
        matchesFilters fl p = true)
    ∧ (combined_search store index (some t) fl limit offset).Sublist
        (semantic_search store index t (limit * 3) 0)
    ∧ (fl.peopleIds = some [7] →
        ∀ p ∈ combined_search store index (some t) fl limit offset, 7 ∈ p.peopleIds) := by
  have hkey := resort_eq_filter store fl (semantic_search store index t (limit * 3) 0)
    (fun p hp => mem_store_of_mem_semantic p hp)
    (semantic_search_ids_nodup store index t (limit * 3) 0 hnd) hstore
  have hmain : combined_search store index (some t) fl limit offset
      = (((semantic_search store index t (limit * 3) 0).filter
          (matchesFilters fl)).drop offset).take limit := by
    rw [combined_search_some_eq store index t fl limit offset ht]
    by_cases hemp : (semantic_search store index t (limit * 3) 0).isEmpty
    · rw [if_pos hemp]
      rw [List.isEmpty_iff.1 hemp]
      simp
    · rw [if_neg hemp, hkey]
  refine ⟨hmain, ?_, ?_, ?_⟩
  · intro p hp
    rw [hmain] at hp
    exact List.of_mem_filter (List.mem_of_mem_drop (List.mem_of_mem_take hp))
  · rw [hmain]
    exact (List.take_sublist _ _).trans
      ((List.drop_sublist _ _).trans (List.filter_sublist _))
  · intro h7 p hp
    rw [hmain] at hp
    have hm : matchesFilters fl p = true :=
      List.of_mem_filter (List.mem_of_mem_drop (List.mem_of_mem_take hp))
    simp only [matchesFilters, h7, optListActive, Bool.and_eq_true] at hm
    have hpf : peopleFilter [7] p = true := by
      have := hm.1.1.1.1.1
      simpa using this
    simp only [peopleFilter, List.any_eq_true, List.contains_cons] at hpf
    obtain ⟨i, hi, hicond⟩ := hpf
    have : i = 7 := by simpa using hicond
    subst this
    exact hi

theorem combined_search_filters_order_witness :
    ("beach" : String) ≠ "" ∧ (searchIndexW "beach").Nodup
    ∧ (storeW.map (fun p => p.id)).Nodup
    ∧ (combined_search storeW searchIndexW (some "beach") filtersW 2 0
        = (((semantic_search storeW searchIndexW "beach" (2 * 3) 0).filter
            (matchesFilters filtersW)).drop 0).take 2
       ∧ (∀ p ∈ combined_search storeW searchIndexW (some "beach") filtersW 2 0,
          matchesFilters filtersW p = true)
       ∧ (combined_search storeW searchIndexW (some "beach") filtersW 2 0).Sublist
          (semantic_search storeW searchIndexW "beach" (2 * 3) 0)
       ∧ (filtersW.peopleIds = some [7] →
          ∀ p ∈ combined_search storeW searchIndexW (some "beach") filtersW 2 0,
            7 ∈ p.peopleIds)) :=
  ⟨by decide, by decide, by decide,
   combined_search_filters_order storeW searchIndexW "beach" filtersW 2 0
     (by decide) (by decide) (by decide)⟩

/-! ## Face identity resolver (app/services/processing_service.py)

`Person` and `Face` keep the columns the resolver, the merge operation and
the queue read (name, cluster id, bounding box, confidence and age/gender
estimates are never consulted by a claim and are omitted).  `Person.photos`
embeds the `photo_people` association from the person side, as the ORM
relationship list the code appends to.

The session is created with `autoflush=False`, so a Face row `db.add`ed to
the session is INSERTed — becomes visible to queries and receives its
autoincrement primary key — only at an explicit `flush()`; `Face.id` is
`none` until then, and queries see exactly the rows whose id is assigned. -/

structure Person where
  id : Nat
  isNamed : Bool
  representativeFaceId : Option Nat
  photoCount : Nat
  photos : List Nat
  deriving Repr, DecidableEq

structure Face where
  id : Option Nat
  photoId : Nat
  personId : Option Nat
  embeddingId : Option String
  deriving Repr, DecidableEq

structure DBState where
  photos : List Nat
  people : List Person
  faces : List Face
  faceIndex : List String
  nextPersonId : Nat
  nextFaceId : Nat
  deriving Repr, DecidableEq

/-- Python truthiness of an optional integer (`if existing_face.person_id:`,
`if best_match_person_id:`): `None` and `0` are falsy.  SQLite autoincrement
keys start at 1, so in reachable states this coincides with `isSome`. -/
def truthyOptNat : Option Nat → Bool
  | none => false
  | some n => n != 0

/-- The Face rows a session query can see: with `autoflush=False`, exactly
the rows that have been flushed, i.e. whose primary key is assigned. -/
def visibleFaces (faces : List Face) : List Face :=
  faces.filter (fun f => f.id.isSome)

/-- `self.db.query(Face).filter(Face.embedding_id == face_id).first()`
followed by `if existing_face and existing_face.person_id:`: the owning
person of the (first) visible face carrying the given embedding id, when
that reference is truthy. -/
def ownerOf (faces : List Face) (eid : String) : Option Nat :=
  match (visibleFaces faces).find? (fun f => f.embeddingId == some eid) with
  | some f => if truthyOptNat f.personId then f.personId else none
  | none => none

/-- One iteration of the neighbor loop in `_match_face_to_person`
(processing_service.py:218-230): skip the face's own entry; when the cosine
distance beats both the 0.6 threshold and the best distance so far, look up
the neighbor's owning person and, if truthy, take it as the new best. -/
def matchStep (faces : List Face) (selfEid : Option String)
    (best : Option Nat × ℚ) (n : String × ℚ) : Option Nat × ℚ :=
  if some n.1 = selfEid then best
  else if n.2 < 3/5 ∧ n.2 < best.2 then
    match ownerOf faces n.1 with
    | some pid => (some pid, n.2)
    | none => best
  else best

/-- The full neighbor loop: fold `matchStep` over the k-NN answer starting
from `best_match_person_id = None`, `best_distance = 1.0`. -/
def findBestMatch (faces : List Face) (selfEid : Option String)
    (neighbors : List (String × ℚ)) : Option Nat × ℚ :=
  neighbors.foldl (matchStep faces selfEid) (none, 1)

/-- `session.flush()` on the Face table: INSERT every pending row, assigning
autoincrement primary keys in insertion order. -/
def flushFaces (faces : List Face) (nextId : Nat) : List Face × Nat :=
  faces.foldl
    (fun acc f =>
      match f.id with
      | none => (acc.1 ++ [{ f with id := some acc.2 }], acc.2 + 1)
      | some _ => (acc.1 ++ [f], acc.2))
    ([], nextId)

def flushDB (st : DBState) : DBState :=
  { st with faces := (flushFaces st.faces st.nextFaceId).1,
            nextFaceId := (flushFaces st.faces st.nextFaceId).2 }

/-- `face.person_id = pid` on the in-flight face object: the row is
identified by its (unique, uuid4-generated) embedding id. -/
def setFacePerson (st : DBState) (eid : Option String) (pid : Nat) : DBState :=
  { st with faces := st.faces.map (fun f =>
      if f.embeddingId == eid then { f with personId := some pid } else f) }

/-- `ProcessingService._create_person_for_face`
(processing_service.py:246-263).  The `Person` is constructed with
`representative_face_id=face.id` BEFORE `self.db.flush()` runs; with
`autoflush=False` the freshly added face has no primary key yet, so the
stored reference is `face.id` as it is at construction time. -/
def create_person_for_face (st : DBState) (face : Face) : DBState :=
  let person : Person :=
    { id := st.nextPersonId, isNamed := false,
      representativeFaceId := face.id,
      photoCount := 1, photos := [] }
  let st1 := flushDB { st with people := st.people ++ [person],
                               nextPersonId := st.nextPersonId + 1 }
  let st2 := setFacePerson st1 face.embeddingId person.id
  if st2.photos.contains face.photoId then
    { st2 with people := st2.people.map (fun p =>
        if p.id = person.id then { p with photos := p.photos ++ [face.photoId] } else p) }
  else st2

/-- `ProcessingService._match_face_to_person`
(processing_service.py:201-244): with an empty neighbor answer, or no truthy
best match, fall through to `_create_person_for_face`; otherwise assign the
face to the best person and idempotently link the photo, recomputing
`photo_count` as the length of the person's photo list after the append. -/
def match_face_to_person (st : DBState) (face : Face)
    (neighbors : List (String × ℚ)) : DBState :=
  if neighbors.isEmpty then create_person_for_face st face
  else
    match (findBestMatch st.faces face.embeddingId neighbors).1 with
    | some pid =>
      if pid ≠ 0 then
        let st1 := setFacePerson st face.embeddingId pid
        { st1 with people := st1.people.map (fun person =>
            if person.id = pid then
              if st1.photos.contains face.photoId ∧ ¬ person.photos.contains face.photoId then
                { person with photos := person.photos ++ [face.photoId],
                              photoCount := (person.photos ++ [face.photoId]).length }
              else person
            else person) }
      else create_person_for_face st face
    | none => create_person_for_face st face

/-- A face detection as consumed by `process_faces`: the uuid4 generated for
its vector-index entry and the k-NN answer the face collection returns for
its embedding.  (Bounding box, confidence and age/gender are carried into
the Face row but never read by any claim, and are omitted.) -/
structure Detection where
  eid : String
  neighbors : List (String × ℚ)
  deriving Repr, DecidableEq

/-- The loop body of `ProcessingService.process_faces`
(processing_service.py:160-199): for each detection, add the Face row (with
`embedding_id` already set) to the session, then insert the embedding into
the face collection, then resolve the face to a person.  `insertOk` tells
whether `face_collection.add` succeeds; when it raises, the exception is
caught by the `except` at the top of `process_faces`, which returns 0 — the
pending Face row stays in the session and is committed unchanged by the
caller (`process_photo_full` / `process_queue` commit unconditionally). -/
def process_faces_go (photoId : Nat) (insertOk : String → Bool) :
    DBState → List Detection → Nat → DBState × Nat
  | st, [], n => (st, n)
  | st, det :: rest, n =>
    let face : Face := { id := none, photoId := photoId, personId := none,
                         embeddingId := some det.eid }
    let st1 := { st with faces := st.faces ++ [face] }
    if insertOk det.eid then
      let st2 := { st1 with faceIndex := st1.faceIndex ++ [det.eid] }
      let st3 := match_face_to_person st2 face det.neighbors
      process_faces_go photoId insertOk st3 rest (n + 1)
    else
      (st1, 0)

def process_faces (st : DBState) (photoId : Nat) (dets : List Detection)
    (insertOk : String → Bool) : DBState × Nat :=
  process_faces_go photoId insertOk st dets 0

/-! ### The match loop: specification of `findBestMatch` -/

/-- A neighbor that can win the match loop: not the face's own entry, cosine
distance strictly below the 0.6 acceptance threshold, and already owned by a
person. -/
def qualifies (faces : List Face) (selfEid : Option String) (n : String × ℚ) : Prop :=
  some n.1 ≠ selfEid ∧ n.2 < 3/5 ∧ (ownerOf faces n.1).isSome

theorem ownerOf_ne_zero {faces : List Face} {eid : String} {pid : Nat}
    (h : ownerOf faces eid = some pid) : pid ≠ 0 := by
  unfold ownerOf at h
  cases hf : (visibleFaces faces).find? (fun f => f.embeddingId == some eid) with
  | none => rw [hf] at h; simp at h
  | some f =>
    rw [hf] at h
    dsimp only at h
    by_cases ht : truthyOptNat f.personId = true
    · rw [if_pos ht] at h
      rw [h] at ht
      simpa [truthyOptNat] using ht
    · rw [if_neg ht] at h
      simp at h

theorem fbm_go (faces : List Face) (selfEid : Option String) :
    ∀ (l : List (String × ℚ)) (acc : Option Nat × ℚ),
      (acc.1 = none → acc.2 = 1) →
      (∀ pid, acc.1 = some pid → acc.2 < 3/5) →
      ((l.foldl (matchStep faces selfEid) acc).1 = none →
          l.foldl (matchStep faces selfEid) acc = acc
          ∧ ∀ n ∈ l, ¬ qualifies faces selfEid n)
      ∧ (∀ pid, (l.foldl (matchStep faces selfEid) acc).1 = some pid →
          (l.foldl (matchStep faces selfEid) acc).2 < 3/5
          ∧ (acc = (some pid, (l.foldl (matchStep faces selfEid) acc).2)
             ∨ ∃ n ∈ l, qualifies faces selfEid n ∧ ownerOf faces n.1 = some pid
                 ∧ n.2 = (l.foldl (matchStep faces selfEid) acc).2)
          ∧ (∀ n ∈ l, qualifies faces selfEid n →
              (l.foldl (matchStep faces selfEid) acc).2 ≤ n.2)
          ∧ (∀ pid0, acc.1 = some pid0 →
              (l.foldl (matchStep faces selfEid) acc).2 ≤ acc.2)) := by
  intro l
  induction l with
  | nil =>
    intro acc h1 h2
    constructor
    · intro _
      exact ⟨rfl, by simp⟩
    · intro pid hp
      refine ⟨h2 pid hp, Or.inl ?_, by simp, fun pid0 _ => le_refl _⟩
      cases acc with
      | mk a b =>
        simp only [List.foldl_nil] at hp ⊢
        rw [show a = some pid from hp]
    | cons n rest ih =>
    intro acc h1 h2
    rw [List.foldl_cons]
    by_cases hself : some n.1 = selfEid
    · have hstep : matchStep faces selfEid acc n = acc := by
        simp [matchStep, hself]
      rw [hstep]
      obtain ⟨ihA, ihB⟩ := ih acc h1 h2
      constructor
      · intro h
        obtain ⟨heq, hall⟩ := ihA h
        refine ⟨heq, fun m hm => ?_⟩
        rcases List.mem_cons.1 hm with rfl | hm
        · intro hq; exact hq.1 hself
        · exact hall m hm
      · intro pid hp
        obtain ⟨hlt, hprov, hmin, hacc⟩ := ihB pid hp
        refine ⟨hlt, ?_, fun m hm hq => ?_, hacc⟩
        · rcases hprov with h | ⟨m, hm, hq⟩
          · exact Or.inl h
          · exact Or.inr ⟨m, List.mem_cons_of_mem _ hm, hq⟩
        · rcases List.mem_cons.1 hm with rfl | hm
          · exact absurd hself hq.1
          · exact hmin m hm hq
    · by_cases hdist : n.2 < 3/5 ∧ n.2 < acc.2
      · cases how : ownerOf faces n.1 with
        | some pid' =>
          have hstep : matchStep faces selfEid acc n = (some pid', n.2) := by
            simp [matchStep, hself, hdist, how]
          rw [hstep]
          obtain ⟨ihA, ihB⟩ := ih (some pid', n.2) (by simp)
            (by intro pid hp; exact hdist.1)
          constructor
          · intro h
            obtain ⟨heq, _⟩ := ihA h
            rw [heq] at h
            exact Option.noConfusion h
          · intro pid hp
            obtain ⟨hlt, hprov, hmin, haccle⟩ := ihB pid hp
            have hqn : qualifies faces selfEid n := ⟨hself, hdist.1, by simp [how]⟩
            refine ⟨hlt, ?_, fun m hm hqm => ?_, fun pid0 _ => ?_⟩
            · rcases hprov with heq | ⟨m, hm, hqm, hom, hdm⟩
              · refine Or.inr ⟨n, List.mem_cons_self _ _, hqn, ?_, ?_⟩
                · have hfst : some pid' = some pid := congrArg Prod.fst heq
                  rw [how]
                  exact hfst
                · exact congrArg Prod.snd heq
              · exact Or.inr ⟨m, List.mem_cons_of_mem _ hm, hqm, hom, hdm⟩
            · rcases List.mem_cons.1 hm with rfl | hm
              · exact haccle pid' rfl
              · exact hmin m hm hqm
            · exact le_of_lt (lt_of_le_of_lt (haccle pid' rfl) hdist.2)
        | none =>
          have hstep : matchStep faces selfEid acc n = acc := by
            simp [matchStep, hself, hdist, how]
          rw [hstep]
          obtain ⟨ihA, ihB⟩ := ih acc h1 h2
          constructor
          · intro h
            obtain ⟨heq, hall⟩ := ihA h
            refine ⟨heq, fun m hm => ?_⟩
            rcases List.mem_cons.1 hm with rfl | hm
            · intro hq
              have h22 := hq.2.2
              rw [how] at h22
              simp at h22
            · exact hall m hm
          · intro pid hp
            obtain ⟨hlt, hprov, hmin, hacc⟩ := ihB pid hp
            refine ⟨hlt, ?_, fun m hm hq => ?_, hacc⟩
            · rcases hprov with h | ⟨m, hm, hq⟩
              · exact Or.inl h
              · exact Or.inr ⟨m, List.mem_cons_of_mem _ hm, hq⟩
            · rcases List.mem_cons.1 hm with rfl | hm
              · have h22 := hq.2.2
                rw [how] at h22
                simp at h22
              · exact hmin m hm hq
      · have hstep : matchStep faces selfEid acc n = acc := by
          simp only [matchStep]
          rw [if_neg hself, if_neg hdist]
        rw [hstep]
        obtain ⟨ihA, ihB⟩ := ih acc h1 h2
        constructor
        · intro h
          obtain ⟨heq, hall⟩ := ihA h
          refine ⟨heq, fun m hm => ?_⟩
          rcases List.mem_cons.1 hm with rfl | hm
          · intro hq
            have haccnone : acc.1 = none := by
              rw [heq] at h
              exact h
            have hone : acc.2 = 1 := h1 haccnone
            refine hdist ⟨hq.2.1, ?_⟩
            rw [hone]
            linarith [hq.2.1]
          · exact hall m hm
        · intro pid hp
          obtain ⟨hlt, hprov, hmin, hacc⟩ := ihB pid hp
          refine ⟨hlt, ?_, fun m hm hq => ?_, hacc⟩
          · rcases hprov with h | ⟨m, hm, hq⟩
            · exact Or.inl h
            · exact Or.inr ⟨m, List.mem_cons_of_mem _ hm, hq⟩
          · rcases List.mem_cons.1 hm with rfl | hm
            · have hle : acc.2 ≤ m.2 := by
                by_contra hcon
                push_neg at hcon
                exact hdist ⟨hq.2.1, hcon⟩
              cases hacc1 : acc.1 with
              | none =>
                have hone : acc.2 = 1 := h1 hacc1
                rw [hone] at hle
                linarith [hq.2.1]
              | some pid0 =>
                exact le_trans (hacc pid0 hacc1) hle
            · exact hmin m hm hq

theorem findBestMatch_spec (faces : List Face) (selfEid : Option String)
    (neighbors : List (String × ℚ)) :
    ((findBestMatch faces selfEid neighbors).1 = none →
        ∀ n ∈ neighbors, ¬ qualifies faces selfEid n)
    ∧ (∀ pid, (findBestMatch faces selfEid neighbors).1 = some pid →
        (∃ n ∈ neighbors, qualifies faces selfEid n ∧ ownerOf faces n.1 = some pid
           ∧ n.2 = (findBestMatch faces selfEid neighbors).2)
        ∧ ∀ n ∈ neighbors, qualifies faces selfEid n →
            (findBestMatch faces selfEid neighbors).2 ≤ n.2) := by
  have h := fbm_go faces selfEid neighbors (none, 1) (fun _ => rfl)
    (by intro pid hp; simp at hp)
  refine ⟨fun hn => (h.1 hn).2, fun pid hp => ?_⟩
  obtain ⟨_, hprov, hmin, _⟩ := h.2 pid hp
  refine ⟨?_, hmin⟩
  rcases hprov with heq | hex
  · have : (none : Option Nat) = some pid := congrArg Prod.fst heq
    simp at this
  · exact hex

theorem setFacePerson_faces_spec (faces : List Face) (eid : Option String) (pid : Nat) :
    ∀ f ∈ faces.map (fun f =>
        if f.embeddingId == eid then { f with personId := some pid } else f),
      f.embeddingId = eid → f.personId = some pid := by
  intro f hf heq
  obtain ⟨f0, hf0, rfl⟩ := List.mem_map.1 hf
  by_cases hb : (f0.embeddingId == eid) = true
  · rw [if_pos hb]
  · rw [if_neg hb] at heq ⊢
    exact absurd heq (by simpa using hb)

/-- What `_create_person_for_face` produces when the face's photo row
exists: a person with the next id whose `representative_face_id` is the
face's id *as it was at construction time*, `photo_count = 1`, the photo
linked; and the face row now references the new person. -/
theorem create_person_spec (st : DBState) (face : Face)
    (hphoto : st.photos.contains face.photoId = true) :
    (∃ person ∈ (create_person_for_face st face).people,
        person.id = st.nextPersonId ∧ person.isNamed = false
        ∧ person.representativeFaceId = face.id
        ∧ person.photoCount = 1 ∧ person.photos = [face.photoId])
    ∧ (∀ f ∈ (create_person_for_face st face).faces,
        f.embeddingId = face.embeddingId → f.personId = some st.nextPersonId) := by
  unfold create_person_for_face
  dsimp only [setFacePerson, flushDB]
  rw [if_pos hphoto]
  constructor
  · refine ⟨_, List.mem_map_of_mem _ (List.mem_append_right _ (List.mem_singleton.2 rfl)), ?_⟩
    rw [if_pos rfl]
    exact ⟨rfl, rfl, rfl, rfl, rfl⟩
  · intro f hf heq
    exact setFacePerson_faces_spec _ face.embeddingId st.nextPersonId f hf heq

/-- Claim C1: the resolver assigns a fresh face to an existing person only
when some returned neighbor (other than the face's own entry) has cosine
distance strictly below 0.6 and a truthy person reference; among qualifying
neighbors one of minimal distance wins, the face row gets that neighbor's
person id, the photo is appended to that person's photo list only when not
already linked, and `photo_count` is recomputed as the size of that list.
When no neighbor qualifies, the face is attached to a brand-new person
instead (its id is fresh, so no existing person gains the face). -/
theorem match_face_assigns_nearest (st : DBState) (face : Face)
    (neighbors : List (String × ℚ))
    (hcount : ∀ p ∈ st.people, p.photoCount = p.photos.length)
    (hphoto : st.photos.contains face.photoId = true)
    (hfresh : ∀ p ∈ st.people, p.id < st.nextPersonId) :
    ((∃ n ∈ neighbors, qualifies st.faces face.embeddingId n) →
      ∃ pid,
        (∃ n ∈ neighbors, qualifies st.faces face.embeddingId n
          ∧ ownerOf st.faces n.1 = some pid
          ∧ ∀ m ∈ neighbors, qualifies st.faces face.embeddingId m → n.2 ≤ m.2)
        ∧ (∀ f ∈ (match_face_to_person st face neighbors).faces,
            f.embeddingId = face.embeddingId → f.personId = some pid)
        ∧ (∀ p ∈ st.people, p.id ≠ pid →
            p ∈ (match_face_to_person st face neighbors).people)
        ∧ (∀ p ∈ st.people, p.id = pid →
            (face.photoId ∈ p.photos →
              p ∈ (match_face_to_person st face neighbors).people
              ∧ p.photoCount = p.photos.length)
            ∧ (face.photoId ∉ p.photos →
              { p with photos := p.photos ++ [face.photoId],
                       photoCount := (p.photos ++ [face.photoId]).length }
                ∈ (match_face_to_person st face neighbors).people)))
    ∧ ((¬ ∃ n ∈ neighbors, qualifies st.faces face.embeddingId n) →
        (∃ person ∈ (match_face_to_person st face neighbors).people,
          person.id = st.nextPersonId ∧ person.photos = [face.photoId])
        ∧ (∀ f ∈ (match_face_to_person st face neighbors).faces,
            f.embeddingId = face.embeddingId → f.personId = some st.nextPersonId)
        ∧ (∀ p ∈ st.people, p.id ≠ st.nextPersonId)) := by
  constructor
  · intro hq
    obtain ⟨n0, hn0, hq0⟩ := hq
    have hne : neighbors ≠ [] := by
      intro h
      rw [h] at hn0
      exact List.not_mem_nil _ hn0
    have hniln : ¬(neighbors.isEmpty = true) := by
      rw [List.isEmpty_iff]
      exact hne
    have spec := findBestMatch_spec st.faces face.embeddingId neighbors
    cases hbm : (findBestMatch st.faces face.embeddingId neighbors).1 with
    | none => exact absurd hq0 (spec.1 hbm n0 hn0)
    | some pid =>
      obtain ⟨⟨nw, hnw, hqw, how, hdw⟩, hmin⟩ := spec.2 pid hbm
      have hpid0 : pid ≠ 0 := ownerOf_ne_zero how
      have hunfold : match_face_to_person st face neighbors
          = { (setFacePerson st face.embeddingId pid) with
              people := st.people.map (fun person =>
                if person.id = pid then
                  if st.photos.contains face.photoId ∧ ¬ person.photos.contains face.photoId then
                    { person with photos := person.photos ++ [face.photoId],
                                  photoCount := (person.photos ++ [face.photoId]).length }
                  else person
                else person) } := by
        unfold match_face_to_person
        rw [if_neg hniln, hbm]
        dsimp only
        rw [if_pos hpid0]
        rfl
      have hpeople : (match_face_to_person st face neighbors).people
          = st.people.map (fun person =>
              if person.id = pid then
                if st.photos.contains face.photoId ∧ ¬ person.photos.contains face.photoId then
                  { person with photos := person.photos ++ [face.photoId],
                                photoCount := (person.photos ++ [face.photoId]).length }
                else person
              else person) := by
        rw [hunfold]
      have hfaces : (match_face_to_person st face neighbors).faces
          = st.faces.map (fun f =>
              if f.embeddingId == face.embeddingId then { f with personId := some pid }
              else f) := by
        rw [hunfold]
        rfl
      refine ⟨pid, ⟨nw, hnw, hqw, how, ?_⟩, ?_, ?_, ?_⟩
      · intro m hm hqm
        rw [hdw]
        exact hmin m hm hqm
      · rw [hfaces]
        exact setFacePerson_faces_spec st.faces face.embeddingId pid
      · intro p hp hne'
        rw [hpeople]
        exact List.mem_map.2 ⟨p, hp, by simp only [if_neg hne']⟩
      · intro p hp hpe
        constructor
        · intro hmem
          refine ⟨?_, hcount p hp⟩
          rw [hpeople]
          have hcond : ¬(st.photos.contains face.photoId = true
              ∧ ¬(p.photos.contains face.photoId = true)) := by
            intro hc
            exact hc.2 (by simpa using hmem)
          exact List.mem_map.2 ⟨p, hp, by simp only [if_pos hpe, if_neg hcond]⟩
        · intro hmem
          rw [hpeople]
          have hcond : st.photos.contains face.photoId = true
              ∧ ¬(p.photos.contains face.photoId = true) := by
            refine ⟨hphoto, fun hb => hmem (by simpa using hb)⟩
          exact List.mem_map.2 ⟨p, hp, by simp only [if_pos hpe, if_pos hcond]⟩
  · intro hnq
    have spec := findBestMatch_spec st.faces face.embeddingId neighbors
    have hcreate : match_face_to_person st face neighbors
        = create_person_for_face st face := by
      unfold match_face_to_person
      by_cases hniln : neighbors.isEmpty = true
      · rw [if_pos hniln]
      · rw [if_neg hniln]
        cases hbm : (findBestMatch st.faces face.embeddingId neighbors).1 with
        | none => rfl
        | some pid =>
          obtain ⟨⟨nw, hnw, hqw, _, _⟩, _⟩ := spec.2 pid hbm
          exact absurd ⟨nw, hnw, hqw⟩ hnq
    rw [hcreate]
    refine ⟨?_, (create_person_spec st face hphoto).2,
      fun p hp => Nat.ne_of_lt (hfresh p hp)⟩
    obtain ⟨person, hmem, hid, _, _, _, hphotos⟩ := (create_person_spec st face hphoto).1
    exact ⟨person, hmem, hid, hphotos⟩

/-! ### Concrete resolver fixtures -/

def faceRowA : Face :=
  { id := some 1, photoId := 1, personId := some 1, embeddingId := some "eA" }

def faceRowB : Face :=
  { id := some 2, photoId := 2, personId := some 2, embeddingId := some "eB" }

def personA : Person :=
  { id := 1, isNamed := false, representativeFaceId := some 1,
    photoCount := 1, photos := [1] }

def personB : Person :=
  { id := 2, isNamed := false, representativeFaceId := some 2,
    photoCount := 1, photos := [2] }

/-- The fresh, not-yet-flushed face being resolved (no primary key yet). -/
def faceNew : Face :=
  { id := none, photoId := 3, personId := none, embeddingId := some "eN" }

def stResolver : DBState :=
  { photos := [1, 2, 3], people := [personA, personB],
    faces := [faceRowA, faceRowB, faceNew],
    faceIndex := ["eA", "eB", "eN"], nextPersonId := 3, nextFaceId := 3 }

def neighborsC1 : List (String × ℚ) :=
  [("eN", 0), ("eA", 1/2), ("eB", 3/10)]

theorem match_face_assigns_nearest_witness :
    (∀ p ∈ stResolver.people, p.photoCount = p.photos.length)
    ∧ stResolver.photos.contains faceNew.photoId = true
    ∧ (∀ p ∈ stResolver.people, p.id < stResolver.nextPersonId)
    ∧ (((∃ n ∈ neighborsC1, qualifies stResolver.faces faceNew.embeddingId n) →
        ∃ pid,
          (∃ n ∈ neighborsC1, qualifies stResolver.faces faceNew.embeddingId n
            ∧ ownerOf stResolver.faces n.1 = some pid
            ∧ ∀ m ∈ neighborsC1, qualifies stResolver.faces faceNew.embeddingId m → n.2 ≤ m.2)
          ∧ (∀ f ∈ (match_face_to_person stResolver faceNew neighborsC1).faces,
              f.embeddingId = faceNew.embeddingId → f.personId = some pid)
          ∧ (∀ p ∈ stResolver.people, p.id ≠ pid →
              p ∈ (match_face_to_person stResolver faceNew neighborsC1).people)
          ∧ (∀ p ∈ stResolver.people, p.id = pid →
              (faceNew.photoId ∈ p.photos →
                p ∈ (match_face_to_person stResolver faceNew neighborsC1).people
                ∧ p.photoCount = p.photos.length)
              ∧ (faceNew.photoId ∉ p.photos →
                { p with photos := p.photos ++ [faceNew.photoId],
                         photoCount := (p.photos ++ [faceNew.photoId]).length }
                  ∈ (match_face_to_person stResolver faceNew neighborsC1).people)))
      ∧ ((¬ ∃ n ∈ neighborsC1, qualifies stResolver.faces faceNew.embeddingId n) →
          (∃ person ∈ (match_face_to_person stResolver faceNew neighborsC1).people,
            person.id = stResolver.nextPersonId ∧ person.photos = [faceNew.photoId])
          ∧ (∀ f ∈ (match_face_to_person stResolver faceNew neighborsC1).faces,
              f.embeddingId = faceNew.embeddingId →
                f.personId = some stResolver.nextPersonId)
          ∧ (∀ p ∈ stResolver.people, p.id ≠ stResolver.nextPersonId))) :=
  ⟨by decide, by decide, by decide,
   match_face_assigns_nearest stResolver faceNew neighborsC1
     (by decide) (by decide) (by decide)⟩

/-- Claim C2 (failing input): resolving a fresh face whose k-NN answer
contains only its own index entry does create a brand-new person with
`is_named = false`, `photo_count = 1` and the face's photo linked, and the
face is assigned to it — but the stored `representative_face_id` is NULL,
not the face's id: `Person(representative_face_id=face.id)` is evaluated
before `self.db.flush()`, and with `autoflush=False` the unflushed face has
no primary key yet.  The flush performed inside `_create_person_for_face`
then assigns the face its key (here 3), which the person row never sees. -/
theorem create_person_null_representative :
    (match_face_to_person stResolver faceNew [("eN", 0)]).people
      = [personA, personB,
         { id := 3, isNamed := false, representativeFaceId := none,
           photoCount := 1, photos := [3] }]
    ∧ (match_face_to_person stResolver faceNew [("eN", 0)]).faces
      = [faceRowA, faceRowB,
         { id := some 3, photoId := 3, personId := some 3, embeddingId := some "eN" }] := by
  constructor
  · rfl
  · rfl

def stEmptyFaces : DBState :=
  { photos := [1], people := [], faces := [], faceIndex := [],
    nextPersonId := 1, nextFaceId := 1 }

def detOne : Detection := { eid := "u1", neighbors := [] }

/-- Claim C7 (failing input): when the face collection's insert raises for
the first detection, `process_faces` aborts with 0, yet the session already
holds the Face row with `embedding_id = "u1"` while the index has no such
entry; the caller (`process_photo_full` / `process_queue`) commits the
session unconditionally, so the persisted row silently claims an
`embedding_id` that has no vector-index entry. -/
theorem process_faces_index_failure :
    (process_faces stEmptyFaces 1 [detOne] (fun _ => false)).1.faces
      = [{ id := none, photoId := 1, personId := none, embeddingId := some "u1" }]
    ∧ (process_faces stEmptyFaces 1 [detOne] (fun _ => false)).1.faceIndex = []
    ∧ (process_faces stEmptyFaces 1 [detOne] (fun _ => false)).2 = 0 :=
  ⟨rfl, rfl, rfl⟩

/-! ## Person merge (app/api/routes/people.py, `merge_people`) -/

/-- `merge_people` (people.py:79-112): 404 when either person is missing,
400 when merging a person with itself; otherwise reassign all of B's faces
to A with a bulk UPDATE, append each of B's photos not already linked to A,
set A's `photo_count` to the size of A's photo list, and delete B. -/
def merge_people (st : DBState) (personId otherId : Nat) : Except String DBState :=
  match st.people.find? (fun p => p.id == personId),
        st.people.find? (fun p => p.id == otherId) with
  | some person, some other =>
    if personId == otherId then .error "Cannot merge person with self"
    else
      let faces := st.faces.map (fun f =>
        if f.personId == some otherId then { f with personId := some personId } else f)
      let newPhotos := other.photos.foldl
        (fun acc ph => if acc.contains ph then acc else acc ++ [ph]) person.photos
      let people := (st.people.map (fun p =>
        if p.id == personId then
          { p with photos := newPhotos, photoCount := newPhotos.length }
        else p)).filter (fun p => !(p.id == otherId))
      .ok { st with faces := faces, people := people }
  | _, _ => .error "Person not found"

/-- The distinct photos reachable through a person's faces. -/
def facePhotoIds (faces : List Face) (pid : Nat) : List Nat :=
  ((faces.filter (fun f => f.personId == some pid)).map (fun f => f.photoId)).dedup

theorem mem_facePhotoIds {faces : List Face} {pid x : Nat} :
    x ∈ facePhotoIds faces pid ↔ ∃ f ∈ faces, f.personId = some pid ∧ f.photoId = x := by
  simp only [facePhotoIds, List.mem_dedup, List.mem_map, List.mem_filter]
  constructor
  · rintro ⟨f, ⟨hf, hb⟩, hx⟩
    exact ⟨f, hf, by simpa using hb, hx⟩
  · rintro ⟨f, hf, hpid, hx⟩
    exact ⟨f, ⟨hf, by simpa using hpid⟩, hx⟩

theorem mem_unionFold (l : List Nat) : ∀ (init : List Nat) (x : Nat),
    x ∈ l.foldl (fun acc ph => if acc.contains ph then acc else acc ++ [ph]) init
      ↔ x ∈ init ∨ x ∈ l := by
  induction l with
  | nil => intro init x; simp
  | cons a t ih =>
    intro init x
    rw [List.foldl_cons]
    by_cases h : init.contains a = true
    · rw [if_pos h, ih]
      constructor
      · rintro (hx | hx)
        · exact Or.inl hx
        · exact Or.inr (List.mem_cons_of_mem _ hx)
      · rintro (hx | hx)
        · exact Or.inl hx
        · rcases List.mem_cons.1 hx with rfl | hx
          · exact Or.inl (by simpa using h)
          · exact Or.inr hx
    · rw [if_neg h, ih]
      simp only [List.mem_append, List.mem_singleton, List.mem_cons]
      tauto

theorem nodup_unionFold (l : List Nat) : ∀ (init : List Nat), init.Nodup →
    (l.foldl (fun acc ph => if acc.contains ph then acc else acc ++ [ph]) init).Nodup := by
  induction l with
  | nil => intro init h; exact h
  | cons a t ih =>
    intro init h
    rw [List.foldl_cons]
    by_cases hc : init.contains a = true
    · rw [if_pos hc]
      exact ih init h
    · rw [if_neg hc]
      refine ih _ (List.Nodup.append h (List.nodup_singleton a) ?_)
      intro x hx hy
      rw [List.mem_singleton] at hy
      subst hy
      exact hc (by simpa using hx)

/-- Claim C8: after merging distinct existing persons A ← B, person B no
longer exists, every face formerly referencing B now references A, A's photo
list is the union of the two photo lists, and A's `photo_count` equals the
number of distinct photos among A's faces — given the §3 invariant that each
person's photo association list matches the photos of their faces and has no
duplicates. -/
theorem merge_people_spec (st : DBState) (pidA pidB : Nat) (A B : Person)
    (hA : st.people.find? (fun p => p.id == pidA) = some A)
    (hB : st.people.find? (fun p => p.id == pidB) = some B)
    (hne : pidA ≠ pidB)
    (hAinv : ∀ x, x ∈ A.photos ↔ x ∈ facePhotoIds st.faces pidA)
    (hBinv : ∀ x, x ∈ B.photos ↔ x ∈ facePhotoIds st.faces pidB)
    (hAnd : A.photos.Nodup) :
    ∃ st', merge_people st pidA pidB = .ok st'
      ∧ (∀ p ∈ st'.people, p.id ≠ pidB)
      ∧ (∀ f ∈ st.faces, f.personId = some pidB →
          { f with personId := some pidA } ∈ st'.faces)
      ∧ (∀ f ∈ st.faces, f.personId ≠ some pidB → f ∈ st'.faces)
      ∧ (∀ f ∈ st'.faces, f.personId ≠ some pidB)
      ∧ ∃ A' ∈ st'.people, A'.id = pidA
          ∧ (∀ x, x ∈ A'.photos ↔ (x ∈ A.photos ∨ x ∈ B.photos))
          ∧ A'.photoCount = A'.photos.length
          ∧ A'.photoCount = (facePhotoIds st'.faces pidA).length := by
  have hbne : ¬((pidA == pidB) = true) := by simp [hne]
  have hAmem : A ∈ st.people := List.mem_of_find?_eq_some hA
  have hAid : A.id = pidA := by simpa using List.find?_some hA
  have hok : merge_people st pidA pidB = .ok
      { st with
        faces := st.faces.map (fun f =>
          if f.personId == some pidB then { f with personId := some pidA } else f),
        people := (st.people.map (fun p =>
          if p.id == pidA then
            { p with
              photos := B.photos.foldl
                (fun acc ph => if acc.contains ph then acc else acc ++ [ph]) A.photos,
              photoCount := (B.photos.foldl
                (fun acc ph => if acc.contains ph then acc else acc ++ [ph])
                  A.photos).length }
          else p)).filter (fun p => !(p.id == pidB)) } := by
    unfold merge_people
    rw [hA, hB]
    dsimp only
    rw [if_neg hbne]
  refine ⟨_, hok, ?_, ?_, ?_, ?_, ?_⟩
  · intro p hp
    have := (List.mem_filter.1 hp).2
    simpa using this
  · intro f hf hfp
    refine List.mem_map.2 ⟨f, hf, ?_⟩
    rw [if_pos (by simpa using hfp)]
  · intro f hf hfp
    refine List.mem_map.2 ⟨f, hf, ?_⟩
    rw [if_neg (by simpa using hfp)]
  · intro f hf
    obtain ⟨f0, _, rfl⟩ := List.mem_map.1 hf
    by_cases hb : (f0.personId == some pidB) = true
    · rw [if_pos hb]
      intro hc
      have : pidA = pidB := by simpa using hc
      exact hne this
    · rw [if_neg hb]
      simpa using hb
  · refine ⟨{ A with
        photos := B.photos.foldl
          (fun acc ph => if acc.contains ph then acc else acc ++ [ph]) A.photos,
        photoCount := (B.photos.foldl
          (fun acc ph => if acc.contains ph then acc else acc ++ [ph])
            A.photos).length }, ?_, hAid, ?_, rfl, ?_⟩
    · refine List.mem_filter.2 ⟨List.mem_map.2 ⟨A, hAmem, ?_⟩, ?_⟩
      · rw [if_pos (by simpa using hAid)]
      · simpa [hAid] using hne
    · intro x
      exact mem_unionFold B.photos A.photos x
    · have hmemiff : ∀ x, x ∈ B.photos.foldl
          (fun acc ph => if acc.contains ph then acc else acc ++ [ph]) A.photos
          ↔ x ∈ facePhotoIds (st.faces.map (fun f =>
              if f.personId == some pidB then { f with personId := some pidA } else f))
              pidA := by
        intro x
        rw [mem_unionFold, mem_facePhotoIds]
        constructor
        · rintro (hx | hx)
          · obtain ⟨f, hf, hfp, hfx⟩ := mem_facePhotoIds.1 ((hAinv x).1 hx)
            have hb : ¬((f.personId == some pidB) = true) := by
              simp [hfp, hne]
            refine ⟨_, List.mem_map_of_mem _ hf, ?_⟩
            rw [if_neg hb]
            exact ⟨hfp, hfx⟩
          · obtain ⟨f, hf, hfp, hfx⟩ := mem_facePhotoIds.1 ((hBinv x).1 hx)
            have hb : (f.personId == some pidB) = true := by simp [hfp]
            refine ⟨_, List.mem_map_of_mem _ hf, ?_⟩
            rw [if_pos hb]
            exact ⟨rfl, hfx⟩
        · rintro ⟨f', hf', hfp, hfx⟩
          obtain ⟨f, hf, rfl⟩ := List.mem_map.1 hf'
          by_cases hb : (f.personId == some pidB) = true
          · rw [if_pos hb] at hfp hfx
            right
            exact (hBinv x).2 (mem_facePhotoIds.2 ⟨f, hf, by simpa using hb, hfx⟩)
          · rw [if_neg hb] at hfp hfx
            left
            exact (hAinv x).2 (mem_facePhotoIds.2 ⟨f, hf, hfp, hfx⟩)
      have hnd1 : (B.photos.foldl
          (fun acc ph => if acc.contains ph then acc else acc ++ [ph]) A.photos).Nodup :=
        nodup_unionFold B.photos A.photos hAnd
      have hnd2 : (facePhotoIds (st.faces.map (fun f =>
          if f.personId == some pidB then { f with personId := some pidA } else f))
          pidA).Nodup := List.nodup_dedup _
      exact ((List.perm_ext_iff_of_nodup hnd1 hnd2).2 hmemiff).length_eq

theorem merge_people_spec_witness :
    stResolver.people.find? (fun p => p.id == 1) = some personA
    ∧ stResolver.people.find? (fun p => p.id == 2) = some personB
    ∧ (1 : Nat) ≠ 2
    ∧ (∀ x, x ∈ personA.photos ↔ x ∈ facePhotoIds stResolver.faces 1)
    ∧ (∀ x, x ∈ personB.photos ↔ x ∈ facePhotoIds stResolver.faces 2)
    ∧ personA.photos.Nodup
    ∧ (∃ st', merge_people stResolver 1 2 = .ok st'
        ∧ (∀ p ∈ st'.people, p.id ≠ 2)
        ∧ (∀ f ∈ stResolver.faces, f.personId = some 2 →
            { f with personId := some 1 } ∈ st'.faces)
        ∧ (∀ f ∈ stResolver.faces, f.personId ≠ some 2 → f ∈ st'.faces)
        ∧ (∀ f ∈ st'.faces, f.personId ≠ some 2)
        ∧ ∃ A' ∈ st'.people, A'.id = 1
            ∧ (∀ x, x ∈ A'.photos ↔ (x ∈ personA.photos ∨ x ∈ personB.photos))
            ∧ A'.photoCount = A'.photos.length
            ∧ A'.photoCount = (facePhotoIds st'.faces 1).length) :=
  ⟨rfl, rfl, by decide, fun x => Iff.rfl, fun x => Iff.rfl, by decide,
   merge_people_spec stResolver 1 2 personA personB rfl rfl (by decide)
     (fun x => Iff.rfl) (fun x => Iff.rfl) (by decide)⟩

/-! ## Processing queue (app/services/processing_service.py)

`QueueItem` embeds a `processing_queue` row (`created_at` is omitted; the
table list itself is kept in insertion/rowid order).  The enrichment
dispatch (`process_photo_full` / `generate_thumbnails` / … per task type) is
embedded as an oracle `exec : String → Nat → Except String Unit`: `.ok`
means the dispatched call returned, `.error e` models an uncaught exception
whose message is `e`.  `now` stands for `datetime.utcnow()`. -/

structure QueueItem where
  id : Nat
  photoId : Nat
  taskType : String
  status : String
  priority : Int
  errorMessage : Option String
  startedAt : Option Nat
  completedAt : Option Nat
  deriving Repr, DecidableEq

structure QueueState where
  items : List QueueItem
  photos : List Nat
  deriving Repr, DecidableEq

/-- `ProcessingService.queue_photo_for_processing`
(processing_service.py:319-327): insert a fresh pending item. -/
def queue_photo_for_processing (st : QueueState) (newId photoId : Nat)
    (taskType : String) : QueueState :=
  let queue_item : QueueItem :=
    { id := newId, photoId := photoId, taskType := taskType, status := "pending",
      priority := 0, errorMessage := none, startedAt := none, completedAt := none }
  { st with items := st.items ++ [queue_item] }

/-- `db.query(ProcessingQueue).filter(status == "pending")
.order_by(priority.desc())`: the pending rows sorted by priority descending.
The SQL sort is embedded as a stable `mergeSort` over the rowid-ordered
scan, so equal priorities keep insertion order (oldest first). -/
def pendingByPriority (items : List QueueItem) : List QueueItem :=
  (items.filter (fun it => it.status == "pending")).mergeSort
    (fun a b => decide (b.priority ≤ a.priority))

/-- `.limit(batch_size)` applied to the pending-by-priority query. -/
def selectBatch (items : List QueueItem) (batchSize : Nat) : List QueueItem :=
  (pendingByPriority items).take batchSize

/-- The per-item body of `process_queue` (processing_service.py:336-364):
mark the item processing (stamping `started_at`), fetch the photo row —
when it is missing, the whole `if photo:` block is skipped and the item
still completes — otherwise dispatch by task type; on success the item
completes (stamping `completed_at`), on an exception it fails and the
message is persisted in `error_message`. -/
def processItem (photos : List Nat) (exec : String → Nat → Except String Unit)
    (now : Nat) (it : QueueItem) : QueueItem :=
  let it1 := { it with status := "processing", startedAt := some now }
  if photos.contains it1.photoId then
    match exec it1.taskType it1.photoId with
    | .ok _ => { it1 with status := "completed", completedAt := some now }
    | .error e => { it1 with status := "failed", errorMessage := some e }
  else
    { it1 with status := "completed", completedAt := some now }

/-- Committing the mutated ORM row: replace the table row bearing the
item's primary key. -/
def updateItem (items : List QueueItem) (it' : QueueItem) : List QueueItem :=
  items.map (fun it => if it.id == it'.id then it' else it)

/-- `ProcessingService.process_queue` (processing_service.py:329-366):
select up to `batch_size` pending items by priority, process each in order,
and return the number of items that reached completed. -/
def process_queue (st : QueueState) (exec : String → Nat → Except String Unit)
    (now : Nat) (batchSize : Nat) : QueueState × Nat :=
  (selectBatch st.items batchSize).foldl
    (fun acc it =>
      let it' := processItem st.photos exec now it
      ({ acc.1 with items := updateItem acc.1.items it' },
       acc.2 + if it'.status == "completed" then 1 else 0))
    (st, 0)

/-- `if max_items and processed >= max_items:` — Python truthiness: a
`max_items` of `None` or `0` never stops the loop. -/
def maxReached (maxItems : Option Nat) (processed : Nat) : Bool :=
  match maxItems with
  | some m => m != 0 && decide (m ≤ processed)
  | none => false

/-- The loop of `ProcessingService.process_continuous`
(processing_service.py:393-455): repeatedly re-query the single
highest-priority pending item from the freshest state and process it,
until none is pending or `max_items` is reached.  The fuel argument bounds
the iterations; `process_continuous` passes the table length, which
suffices because every iteration removes one item from the pending set.
The cooperative stop flag and the shared progress record are process-local
concurrency state orthogonal to the queue semantics and are elided — a
stop request merely truncates the loop at an item boundary, which the same
invariants cover. -/
def process_continuous_go (photos : List Nat)
    (exec : String → Nat → Except String Unit) (now : Nat)
    (maxItems : Option Nat) :
    Nat → List QueueItem → Nat → List QueueItem × Nat
  | 0, items, processed => (items, processed)
  | fuel + 1, items, processed =>
    if maxReached maxItems processed then (items, processed)
    else
      match (pendingByPriority items).head? with
      | none => (items, processed)
      | some it =>
        let it' := processItem photos exec now it
        process_continuous_go photos exec now maxItems fuel (updateItem items it')
          (processed + if it'.status == "completed" then 1 else 0)

def process_continuous (st : QueueState)
    (exec : String → Nat → Except String Unit) (now : Nat)
    (maxItems : Option Nat) : QueueState × Nat :=
  ({ st with items := (process_continuous_go st.photos exec now maxItems
        st.items.length st.items 0).1 },
   (process_continuous_go st.photos exec now maxItems
      st.items.length st.items 0).2)

/-! ### Basic facts about `processItem` and the selection -/

theorem processItem_id (photos : List Nat) (exec : String → Nat → Except String Unit)
    (now : Nat) (it : QueueItem) : (processItem photos exec now it).id = it.id := by
  unfold processItem
  dsimp only
  split
  · split <;> rfl
  · rfl

theorem processItem_status (photos : List Nat) (exec : String → Nat → Except String Unit)
    (now : Nat) (it : QueueItem) :
    (processItem photos exec now it).status = "completed"
    ∨ (processItem photos exec now it).status = "failed" := by
  unfold processItem
  dsimp only
  split
  · split
    · exact Or.inl rfl
    · exact Or.inr rfl
  · exact Or.inl rfl

theorem mem_selectBatch {items : List QueueItem} {batchSize : Nat} {it : QueueItem}
    (h : it ∈ selectBatch items batchSize) : it ∈ items ∧ it.status = "pending" := by
  have h1 := List.mem_of_mem_take h
  have h2 := List.mem_mergeSort.1 h1
  have h3 := List.mem_filter.1 h2
  exact ⟨h3.1, by simpa using h3.2⟩

theorem mem_pendingByPriority {items : List QueueItem} {it : QueueItem}
    (h : it ∈ pendingByPriority items) : it ∈ items ∧ it.status = "pending" := by
  have h2 := List.mem_mergeSort.1 h
  have h3 := List.mem_filter.1 h2
  exact ⟨h3.1, by simpa using h3.2⟩

/-- Replacing the row that carries a just-processed item's id inside a
table of the form "original with a set of items already processed" yields
the same form with the new item added to the processed set (ids are
primary keys, so they are unique in the table). -/
theorem updateItem_map_step (photos : List Nat)
    (exec : String → Nat → Except String Unit) (now : Nat)
    (orig : List QueueItem) (hnd : (orig.map (fun it => it.id)).Nodup)
    (it : QueueItem) (hit : it ∈ orig) (done : List QueueItem) :
    updateItem (orig.map (fun x =>
        if x ∈ done then processItem photos exec now x else x))
        (processItem photos exec now it)
      = orig.map (fun x =>
          if x ∈ it :: done then processItem photos exec now x else x) := by
  unfold updateItem
  rw [List.map_map]
  refine List.map_congr_left fun x hx => ?_
  dsimp only [Function.comp]
  by_cases hid : x.id = it.id
  · have hxit : x = it := List.inj_on_of_nodup_map hnd hx hit hid
    subst hxit
    have hidkey : ((if x ∈ done then processItem photos exec now x else x).id
        == (processItem photos exec now x).id) = true := by
      by_cases hd : x ∈ done
      · simp [hd]
      · simp [hd, processItem_id]
    rw [if_pos hidkey, if_pos (List.mem_cons_self x done)]
  · have h1 : ¬(((if x ∈ done then processItem photos exec now x else x).id
        == (processItem photos exec now it).id) = true) := by
      by_cases hd : x ∈ done
      · simp [hd, processItem_id, hid]
      · simp [hd, processItem_id, hid]
    rw [if_neg h1]
    have hiff : (x ∈ it :: done) ↔ (x ∈ done) := by
      simp only [List.mem_cons]
      constructor
      · rintro (rfl | h)
        · exact absurd rfl hid
        · exact h
      · exact Or.inr
    exact if_congr hiff.symm rfl rfl

theorem foldl_updateItem_map (photos : List Nat)
    (exec : String → Nat → Except String Unit) (now : Nat)
    (orig : List QueueItem) (hnd : (orig.map (fun it => it.id)).Nodup) :
    ∀ (sel done : List QueueItem), (∀ x ∈ sel, x ∈ orig) →
      sel.foldl (fun cur it => updateItem cur (processItem photos exec now it))
          (orig.map (fun x => if x ∈ done then processItem photos exec now x else x))
        = orig.map (fun x =>
            if x ∈ done ∨ x ∈ sel then processItem photos exec now x else x) := by
  intro sel
  induction sel with
  | nil =>
    intro done _
    simp only [List.foldl_nil]
    refine List.map_congr_left fun x hx => ?_
    refine if_congr ?_ rfl rfl
    simp
  | cons it rest ih =>
    intro done hsub
    rw [List.foldl_cons,
        updateItem_map_step photos exec now orig hnd it
          (hsub it (List.mem_cons_self _ _)) done,
        ih (it :: done) (fun x hx => hsub x (List.mem_cons_of_mem _ hx))]
    refine List.map_congr_left fun x hx => ?_
    refine if_congr ?_ rfl rfl
    simp only [List.mem_cons]
    tauto

theorem map_if_mem_nil (photos : List Nat)
    (exec : String → Nat → Except String Unit) (now : Nat)
    (orig : List QueueItem) :
    orig.map (fun x =>
        if x ∈ ([] : List QueueItem) then processItem photos exec now x else x)
      = orig := by
  have h : orig.map (fun x =>
      if x ∈ ([] : List QueueItem) then processItem photos exec now x else x)
        = orig.map (fun x => x) :=
    List.map_congr_left fun x _ => if_neg (List.not_mem_nil x)
  rw [h, List.map_id']

theorem pq_fold_split (photos : List Nat)
    (exec : String → Nat → Except String Unit) (now : Nat) :
    ∀ (sel : List QueueItem) (s : QueueState) (n : Nat),
      sel.foldl (fun acc it =>
          let it' := processItem photos exec now it
          ({ acc.1 with items := updateItem acc.1.items it' },
           acc.2 + if it'.status == "completed" then 1 else 0)) (s, n)
        = ({ s with
               items := sel.foldl
                 (fun cur it => updateItem cur (processItem photos exec now it))
                 s.items },
           n + (sel.map (processItem photos exec now)).countP
              (fun it => it.status == "completed")) := by
  intro sel
  induction sel with
  | nil =>
    intro s n
    simp only [List.foldl_nil, List.map_nil, List.countP_nil, Nat.add_zero]
  | cons it rest ih =>
    intro s n
    rw [List.foldl_cons, List.foldl_cons, ih]
    rw [List.map_cons, List.countP_cons]
    exact Prod.ext rfl (by omega)

theorem process_queue_eq (st : QueueState)
    (exec : String → Nat → Except String Unit) (now batchSize : Nat) :
    process_queue st exec now batchSize
      = ({ st with
             items := (selectBatch st.items batchSize).foldl
               (fun cur it => updateItem cur (processItem st.photos exec now it))
               st.items },
         ((selectBatch st.items batchSize).map (processItem st.photos exec now)).countP
            (fun it => it.status == "completed")) := by
  unfold process_queue
  rw [pq_fold_split]
  rw [Nat.zero_add]

theorem foldl_updateItem_from_orig (photos : List Nat)
    (exec : String → Nat → Except String Unit) (now : Nat)
    (orig : List QueueItem) (hnd : (orig.map (fun it => it.id)).Nodup)
    (sel : List QueueItem) (hsub : ∀ x ∈ sel, x ∈ orig) :
    sel.foldl (fun cur it => updateItem cur (processItem photos exec now it)) orig
      = orig.map (fun x => if x ∈ sel then processItem photos exec now x else x) := by
  have h := foldl_updateItem_map photos exec now orig hnd sel [] hsub
  rw [map_if_mem_nil] at h
  rw [h]
  refine List.map_congr_left fun x hx => ?_
  refine if_congr ?_ rfl rfl
  simp

theorem process_queue_items_form (st : QueueState)
    (exec : String → Nat → Except String Unit) (now batchSize : Nat)
    (hnd : (st.items.map (fun it => it.id)).Nodup) :
    (process_queue st exec now batchSize).1.items
      = st.items.map (fun x =>
          if x ∈ selectBatch st.items batchSize
          then processItem st.photos exec now x else x) := by
  rw [process_queue_eq]
  exact foldl_updateItem_from_orig st.photos exec now st.items hnd
    (selectBatch st.items batchSize) (fun x hx => (mem_selectBatch hx).1)

theorem pc_go_form (photos : List Nat) (exec : String → Nat → Except String Unit)
    (now : Nat) (maxItems : Option Nat) (orig : List QueueItem)
    (hnd : (orig.map (fun it => it.id)).Nodup) :
    ∀ (fuel : Nat) (D : List QueueItem) (cnt : Nat),
      (∀ d ∈ D, d ∈ orig ∧ d.status = "pending") →
      ∃ D' : List QueueItem, (∀ d ∈ D', d ∈ orig ∧ d.status = "pending")
        ∧ (process_continuous_go photos exec now maxItems fuel
            (orig.map (fun x => if x ∈ D then processItem photos exec now x else x))
            cnt).1
          = orig.map (fun x => if x ∈ D' then processItem photos exec now x else x) := by
  intro fuel
  induction fuel with
  | zero =>
    intro D cnt hD
    exact ⟨D, hD, rfl⟩
  | succ fuel ih =>
    intro D cnt hD
    rw [process_continuous_go]
    by_cases hmax : maxReached maxItems cnt = true
    · rw [if_pos hmax]
      exact ⟨D, hD, rfl⟩
    · rw [if_neg hmax]
      cases hhead : (pendingByPriority (orig.map (fun x =>
          if x ∈ D then processItem photos exec now x else x))).head? with
      | none =>
        exact ⟨D, hD, rfl⟩
      | some it =>
        obtain ⟨hin, hpend⟩ := mem_pendingByPriority
          (List.mem_of_mem_head? (Option.mem_def.2 hhead))
        obtain ⟨x, hx, hxe⟩ := List.mem_map.1 hin
        by_cases hxd : x ∈ D
        · rw [if_pos hxd] at hxe
          rcases processItem_status photos exec now x with hs | hs
          · rw [hxe, hpend] at hs
            exact absurd hs (by decide)
          · rw [hxe, hpend] at hs
            exact absurd hs (by decide)
        · rw [if_neg hxd] at hxe
          subst hxe
          dsimp only
          rw [updateItem_map_step photos exec now orig hnd x hx D]
          exact ih (x :: D) _ (fun d hd => by
            rcases List.mem_cons.1 hd with rfl | hd
            · exact ⟨hx, hpend⟩
            · exact hD d hd)

theorem process_continuous_items_form (st : QueueState)
    (exec : String → Nat → Except String Unit) (now : Nat) (maxItems : Option Nat)
    (hnd : (st.items.map (fun it => it.id)).Nodup) :
    ∃ D : List QueueItem, (∀ d ∈ D, d ∈ st.items ∧ d.status = "pending")
      ∧ (process_continuous st exec now maxItems).1.items
        = st.items.map (fun x =>
            if x ∈ D then processItem st.photos exec now x else x) := by
  obtain ⟨D', hD', heq⟩ := pc_go_form st.photos exec now maxItems st.items hnd
    st.items.length [] 0 (fun d hd => absurd hd (List.not_mem_nil d))
  rw [map_if_mem_nil] at heq
  exact ⟨D', hD', heq⟩

/-- The status transitions the spec allows for a queue item. -/
def allowedStep (a b : String) : Prop :=
  (a = "pending" ∧ b = "processing")
  ∨ (a = "processing" ∧ (b = "completed" ∨ b = "failed"))

/-- Per-row consequence of the map form: a row either is untouched, or was
pending and moved through processing to a terminal status; terminal rows are
never touched (in particular a failed row is not retried in place). -/
theorem per_item_transition (photos : List Nat)
    (exec : String → Nat → Except String Unit) (now : Nat)
    (orig : List QueueItem) (D : List QueueItem) (new : List QueueItem)
    (hnew : new = orig.map (fun x =>
        if x ∈ D then processItem photos exec now x else x))
    (hD : ∀ d ∈ D, d ∈ orig ∧ d.status = "pending")
    (i : Nat) (h : i < orig.length) (h' : i < new.length) :
    (new.get ⟨i, h'⟩ = orig.get ⟨i, h⟩
      ∨ ((orig.get ⟨i, h⟩).status = "pending"
         ∧ List.Chain' allowedStep [(orig.get ⟨i, h⟩).status, "processing",
             (new.get ⟨i, h'⟩).status]))
    ∧ (((orig.get ⟨i, h⟩).status = "completed" ∨ (orig.get ⟨i, h⟩).status = "failed") →
        new.get ⟨i, h'⟩ = orig.get ⟨i, h⟩) := by
  subst hnew
  have hget : (orig.map (fun x =>
      if x ∈ D then processItem photos exec now x else x)).get ⟨i, h'⟩
      = (fun x => if x ∈ D then processItem photos exec now x else x)
          (orig.get ⟨i, h⟩) := by
    simp
  rw [hget]
  dsimp only
  by_cases hmem : orig.get ⟨i, h⟩ ∈ D
  · have hpend := (hD _ hmem).2
    rw [if_pos hmem]
    constructor
    · refine Or.inr ⟨hpend, ?_⟩
      rw [List.chain'_cons]
      refine ⟨Or.inl ⟨hpend, rfl⟩, ?_⟩
      rw [List.chain'_cons]
      refine ⟨Or.inr ⟨rfl, processItem_status photos exec now _⟩, List.chain'_singleton _⟩
    · intro hterm
      rcases hterm with ht | ht <;> (rw [hpend] at ht; exact absurd ht (by decide))
  · rw [if_neg hmem]
    exact ⟨Or.inl rfl, fun _ => rfl⟩

/-- The row `queue_photo_for_processing` inserts. -/
def enqueuedItem (newId photoId : Nat) (taskType : String) : QueueItem :=
  { id := newId, photoId := photoId, taskType := taskType, status := "pending",
    priority := 0, errorMessage := none, startedAt := none, completedAt := none }

/-- Claim C5: across `enqueue`, `runBatch` and `runContinuous`, every queue
item's status only moves along pending → processing → completed or
pending → processing → failed; items in a terminal status are never touched
(so a failed item is never retried in place), and `enqueue` only appends a
fresh pending item. -/
theorem queue_status_monotone (st : QueueState)
    (exec : String → Nat → Except String Unit) (now batchSize : Nat)
    (maxItems : Option Nat) (newId photoId : Nat) (taskType : String)
    (hnd : (st.items.map (fun it => it.id)).Nodup) :
    ((process_queue st exec now batchSize).1.items.length = st.items.length
     ∧ ∀ i (h : i < st.items.length)
         (h' : i < (process_queue st exec now batchSize).1.items.length),
        (((process_queue st exec now batchSize).1.items.get ⟨i, h'⟩ = st.items.get ⟨i, h⟩
          ∨ ((st.items.get ⟨i, h⟩).status = "pending"
             ∧ List.Chain' allowedStep [(st.items.get ⟨i, h⟩).status, "processing",
                 ((process_queue st exec now batchSize).1.items.get ⟨i, h'⟩).status]))
         ∧ (((st.items.get ⟨i, h⟩).status = "completed"
              ∨ (st.items.get ⟨i, h⟩).status = "failed") →
             (process_queue st exec now batchSize).1.items.get ⟨i, h'⟩
               = st.items.get ⟨i, h⟩)))
    ∧ ((process_continuous st exec now maxItems).1.items.length = st.items.length
       ∧ ∀ i (h : i < st.items.length)
           (h' : i < (process_continuous st exec now maxItems).1.items.length),
          (((process_continuous st exec now maxItems).1.items.get ⟨i, h'⟩
              = st.items.get ⟨i, h⟩
            ∨ ((st.items.get ⟨i, h⟩).status = "pending"
               ∧ List.Chain' allowedStep [(st.items.get ⟨i, h⟩).status, "processing",
                   ((process_continuous st exec now maxItems).1.items.get ⟨i, h'⟩).status]))
           ∧ (((st.items.get ⟨i, h⟩).status = "completed"
                ∨ (st.items.get ⟨i, h⟩).status = "failed") →
               (process_continuous st exec now maxItems).1.items.get ⟨i, h'⟩
                 = st.items.get ⟨i, h⟩)))
    ∧ (queue_photo_for_processing st newId photoId taskType).items
        = st.items ++ [enqueuedItem newId photoId taskType] := by
  refine ⟨?_, ?_, rfl⟩
  · have hform := process_queue_items_form st exec now batchSize hnd
    have hD : ∀ d ∈ selectBatch st.items batchSize, d ∈ st.items ∧ d.status = "pending" :=
      fun d hd => mem_selectBatch hd
    constructor
    · rw [hform, List.length_map]
    · intro i h h'
      exact per_item_transition st.photos exec now st.items
        (selectBatch st.items batchSize) _ hform hD i h h'
  · obtain ⟨D, hD, hform⟩ := process_continuous_items_form st exec now maxItems hnd
    constructor
    · rw [hform, List.length_map]
    · intro i h h'
      exact per_item_transition st.photos exec now st.items D _ hform hD i h h'

/-- Claim C6: `runBatch` selects at most `batchSize` pending items in
priority-descending order with ties kept in insertion order (the selection
is a stable sort of the insertion-ordered pending rows), processes exactly
those items in that order (every other row is untouched), each selected item
with an existing photo completes on success or fails with the error message
persisted, and the returned count is exactly the number of processed items
that reached completed. -/
theorem process_queue_batch_spec (st : QueueState)
    (exec : String → Nat → Except String Unit) (now batchSize : Nat)
    (hnd : (st.items.map (fun it => it.id)).Nodup) :
    (selectBatch st.items batchSize).length ≤ batchSize
    ∧ (∀ it ∈ selectBatch st.items batchSize, it ∈ st.items ∧ it.status = "pending")
    ∧ List.Pairwise (fun a b => b.priority ≤ a.priority) (selectBatch st.items batchSize)
    ∧ (∀ a b : QueueItem, b.priority ≤ a.priority →
        [a, b].Sublist (st.items.filter (fun it => it.status == "pending")) →
        [a, b].Sublist (pendingByPriority st.items))
    ∧ (process_queue st exec now batchSize).1.items
        = st.items.map (fun x =>
            if x ∈ selectBatch st.items batchSize
            then processItem st.photos exec now x else x)
    ∧ (∀ it ∈ selectBatch st.items batchSize,
        st.photos.contains it.photoId = true →
          (∀ u, exec it.taskType it.photoId = Except.ok u →
            (processItem st.photos exec now it).status = "completed")
          ∧ (∀ e, exec it.taskType it.photoId = Except.error e →
            (processItem st.photos exec now it).status = "failed"
            ∧ (processItem st.photos exec now it).errorMessage = some e))
    ∧ (process_queue st exec now batchSize).2
        = ((selectBatch st.items batchSize).map (processItem st.photos exec now)).countP
            (fun it => it.status == "completed") := by
  have htrans : ∀ a b c : QueueItem,
      decide (b.priority ≤ a.priority) = true →
      decide (c.priority ≤ b.priority) = true →
      decide (c.priority ≤ a.priority) = true := by
    intro a b c hab hbc
    simp only [decide_eq_true_eq] at *
    omega
  have htotal : ∀ a b : QueueItem,
      (decide (b.priority ≤ a.priority) || decide (a.priority ≤ b.priority)) = true := by
    intro a b
    simp only [Bool.or_eq_true, decide_eq_true_eq]
    omega
  refine ⟨List.length_take_le _ _, fun it hit => mem_selectBatch hit, ?_, ?_, ?_, ?_, ?_⟩
  · have hs := List.sorted_mergeSort htrans htotal
      (st.items.filter (fun it => it.status == "pending"))
    have hsel : List.Pairwise (fun a b => decide (b.priority ≤ a.priority) = true)
        (selectBatch st.items batchSize) :=
      List.Pairwise.sublist (List.take_sublist _ _) hs
    exact hsel.imp (fun hab => by simpa using hab)
  · intro a b hab hsub
    exact List.pair_sublist_mergeSort htrans htotal (by simpa using hab) hsub
  · exact process_queue_items_form st exec now batchSize hnd
  · intro it _ hc
    constructor
    · intro u hu
      unfold processItem
      dsimp only
      rw [if_pos hc, hu]
    · intro e he
      unfold processItem
      dsimp only
      rw [if_pos hc, he]
      exact ⟨rfl, rfl⟩
  · rw [process_queue_eq]

/-- Claim C10: a selected pending item whose `photo_id` has no photo row is
processed without consulting the enrichment dispatch at all (the result is
independent of `exec`), still transitions to completed with no error message
recorded, stays in the table in processed form, and is counted in the
returned number of processed items. -/
theorem missing_photo_item_completes (st : QueueState)
    (exec exec' : String → Nat → Except String Unit) (now batchSize : Nat)
    (it : QueueItem)
    (hnd : (st.items.map (fun x => x.id)).Nodup)
    (hsel : it ∈ selectBatch st.items batchSize)
    (hmiss : st.photos.contains it.photoId = false) :
    (processItem st.photos exec now it).status = "completed"
    ∧ (processItem st.photos exec now it).errorMessage = it.errorMessage
    ∧ processItem st.photos exec now it = processItem st.photos exec' now it
    ∧ processItem st.photos exec now it ∈ (process_queue st exec now batchSize).1.items
    ∧ 1 ≤ (process_queue st exec now batchSize).2 := by
  have hmiss' : ¬(st.photos.contains it.photoId = true) := by
    rw [hmiss]
    exact Bool.false_ne_true
  have hproc : processItem st.photos exec now it
      = { it with status := "completed", startedAt := some now,
                  completedAt := some now } := by
    unfold processItem
    dsimp only
    rw [if_neg hmiss']
  have hproc' : processItem st.photos exec' now it
      = { it with status := "completed", startedAt := some now,
                  completedAt := some now } := by
    unfold processItem
    dsimp only
    rw [if_neg hmiss']
  refine ⟨by rw [hproc], by rw [hproc], by rw [hproc, hproc'], ?_, ?_⟩
  · rw [process_queue_items_form st exec now batchSize hnd]
    exact List.mem_map.2 ⟨it, (mem_selectBatch hsel).1, by rw [if_pos hsel]⟩
  · rw [process_queue_eq]
    refine Nat.succ_le_of_lt (List.countP_pos_iff.2 ?_)
    refine ⟨processItem st.photos exec now it, List.mem_map_of_mem _ hsel, ?_⟩
    rw [hproc]
    rfl

/-! ### Concrete queue fixtures -/

def qitem1 : QueueItem :=
  { id := 1, photoId := 10, taskType := "full", status := "pending",
    priority := 0, errorMessage := none, startedAt := none, completedAt := none }

def qitem2 : QueueItem :=
  { id := 2, photoId := 99, taskType := "full", status := "pending",
    priority := 1, errorMessage := none, startedAt := none, completedAt := none }

def qitem3 : QueueItem :=
  { id := 3, photoId := 11, taskType := "faces", status := "failed",
    priority := 0, errorMessage := some "old failure", startedAt := none,
    completedAt := none }

def queueStateW : QueueState :=
  { items := [qitem2, qitem1, qitem3], photos := [10, 11] }

def execW : String → Nat → Except String Unit :=
  fun _ pid => if pid == 10 then Except.ok () else Except.error "boom"

theorem pendingByPriority_queueStateW :
    pendingByPriority queueStateW.items = [qitem2, qitem1] := by
  have h : queueStateW.items.filter (fun it => it.status == "pending")
      = [qitem2, qitem1] := rfl
  unfold pendingByPriority
  rw [h]
  exact List.mergeSort_of_sorted (by decide)

theorem selectBatch_queueStateW : selectBatch queueStateW.items 2 = [qitem2, qitem1] := by
  unfold selectBatch
  rw [pendingByPriority_queueStateW]
  rfl

theorem queue_status_monotone_witness :
    (queueStateW.items.map (fun it => it.id)).Nodup
    ∧ (((process_queue queueStateW execW 7 2).1.items.length = queueStateW.items.length
       ∧ ∀ i (h : i < queueStateW.items.length)
           (h' : i < (process_queue queueStateW execW 7 2).1.items.length),
          (((process_queue queueStateW execW 7 2).1.items.get ⟨i, h'⟩
              = queueStateW.items.get ⟨i, h⟩
            ∨ ((queueStateW.items.get ⟨i, h⟩).status = "pending"
               ∧ List.Chain' allowedStep [(queueStateW.items.get ⟨i, h⟩).status,
                   "processing",
                   ((process_queue queueStateW execW 7 2).1.items.get ⟨i, h'⟩).status]))
           ∧ (((queueStateW.items.get ⟨i, h⟩).status = "completed"
                ∨ (queueStateW.items.get ⟨i, h⟩).status = "failed") →
               (process_queue queueStateW execW 7 2).1.items.get ⟨i, h'⟩
                 = queueStateW.items.get ⟨i, h⟩)))
      ∧ ((process_continuous queueStateW execW 7 (some 1)).1.items.length
            = queueStateW.items.length
         ∧ ∀ i (h : i < queueStateW.items.length)
             (h' : i < (process_continuous queueStateW execW 7 (some 1)).1.items.length),
            (((process_continuous queueStateW execW 7 (some 1)).1.items.get ⟨i, h'⟩
                = queueStateW.items.get ⟨i, h⟩
              ∨ ((queueStateW.items.get ⟨i, h⟩).status = "pending"
                 ∧ List.Chain' allowedStep [(queueStateW.items.get ⟨i, h⟩).status,
                     "processing",
                     ((process_continuous queueStateW execW 7
                         (some 1)).1.items.get ⟨i, h'⟩).status]))
             ∧ (((queueStateW.items.get ⟨i, h⟩).status = "completed"
                  ∨ (queueStateW.items.get ⟨i, h⟩).status = "failed") →
                 (process_continuous queueStateW execW 7 (some 1)).1.items.get ⟨i, h'⟩
                   = queueStateW.items.get ⟨i, h⟩)))
      ∧ (queue_photo_for_processing queueStateW 9 12 "tags").items
          = queueStateW.items ++ [enqueuedItem 9 12 "tags"]) :=
  ⟨by decide, queue_status_monotone queueStateW execW 7 2 (some 1) 9 12 "tags" (by decide)⟩

theorem process_queue_batch_spec_witness :
    (queueStateW.items.map (fun it => it.id)).Nodup
    ∧ ((selectBatch queueStateW.items 2).length ≤ 2
      ∧ (∀ it ∈ selectBatch queueStateW.items 2, it ∈ queueStateW.items
          ∧ it.status = "pending")
      ∧ List.Pairwise (fun a b => b.priority ≤ a.priority) (selectBatch queueStateW.items 2)
      ∧ (∀ a b : QueueItem, b.priority ≤ a.priority →
          [a, b].Sublist (queueStateW.items.filter (fun it => it.status == "pending")) →
          [a, b].Sublist (pendingByPriority queueStateW.items))
      ∧ (process_queue queueStateW execW 7 2).1.items
          = queueStateW.items.map (fun x =>
              if x ∈ selectBatch queueStateW.items 2
              then processItem queueStateW.photos execW 7 x else x)
      ∧ (∀ it ∈ selectBatch queueStateW.items 2,
          queueStateW.photos.contains it.photoId = true →
            (∀ u, execW it.taskType it.photoId = Except.ok u →
              (processItem queueStateW.photos execW 7 it).status = "completed")
            ∧ (∀ e, execW it.taskType it.photoId = Except.error e →
              (processItem queueStateW.photos execW 7 it).status = "failed"
              ∧ (processItem queueStateW.photos execW 7 it).errorMessage = some e))
      ∧ (process_queue queueStateW execW 7 2).2
          = ((selectBatch queueStateW.items 2).map
              (processItem queueStateW.photos execW 7)).countP
              (fun it => it.status == "completed")) :=
  ⟨by decide, process_queue_batch_spec queueStateW execW 7 2 (by decide)⟩

theorem missing_photo_item_completes_witness :
    (queueStateW.items.map (fun x => x.id)).Nodup
    ∧ qitem2 ∈ selectBatch queueStateW.items 2
    ∧ queueStateW.photos.contains qitem2.photoId = false
    ∧ ((processItem queueStateW.photos execW 7 qitem2).status = "completed"
      ∧ (processItem queueStateW.photos execW 7 qitem2).errorMessage = qitem2.errorMessage
      ∧ processItem queueStateW.photos execW 7 qitem2
          = processItem queueStateW.photos (fun _ _ => Except.error "other") 7 qitem2
      ∧ processItem queueStateW.photos execW 7 qitem2
          ∈ (process_queue queueStateW execW 7 2).1.items
      ∧ 1 ≤ (process_queue queueStateW execW 7 2).2) :=
  ⟨by decide, by rw [selectBatch_queueStateW]; decide, by decide,
   missing_photo_item_completes queueStateW execW (fun _ _ => Except.error "other") 7 2
     qitem2 (by decide) (by rw [selectBatch_queueStateW]; decide) (by decide)⟩

end LocalLens
